import Mathlib

/-!
Verification development for the `cml-pyats-validator` console-execution core
(`src/cml_pyats_validator/console_executor.py`).

Strings are modelled as `List Char`.  Python string operations used by the
source (`str.strip`, `str.rstrip`, `str.split`, `str.replace`, `in`,
`re.sub` for the concrete ANSI pattern, and the concrete prompt regular
expressions) are embedded as executable Lean functions on `List Char`.

`pyIsSpace` models Python's notion of whitespace used by `str.strip` /
`str.isspace` and by `\s` of the `re` module (restricted to the code points
that Python treats as whitespace; the source only ever deals with console
text, and every predicate below uses this one definition consistently).
-/

def pyIsSpace (c : Char) : Bool :=
  c = ' ' || ('\x09' ≤ c && c ≤ '\x0d') || ('\x1c' ≤ c && c ≤ '\x1f') ||
  c.toNat = 0x85 || c.toNat = 0xa0 || c.toNat = 0x1680 ||
  (0x2000 ≤ c.toNat && c.toNat ≤ 0x200a) ||
  c.toNat = 0x2028 || c.toNat = 0x2029 || c.toNat = 0x202f ||
  c.toNat = 0x205f || c.toNat = 0x3000

/-- Python `not line.strip()`: a line is blank iff every character is whitespace. -/
def isBlankLine (l : List Char) : Bool := l.all pyIsSpace

/-- Python `str.lstrip()`. -/
def pyLstrip (l : List Char) : List Char := l.dropWhile pyIsSpace

/-- Python `str.rstrip()`. -/
def pyRstrip (l : List Char) : List Char := (l.reverse.dropWhile pyIsSpace).reverse

/-- Python `str.strip()`. -/
def pyStrip (l : List Char) : List Char := pyRstrip (pyLstrip l)

/-- Python `needle == hay[:len(needle)]`, helper for substring containment. -/
def beginsWith : List Char → List Char → Bool
  | [], _ => true
  | _ :: _, [] => false
  | a :: as, b :: bs => a = b && beginsWith as bs

/-- Python `needle in hay` (substring containment). -/
def listContains (needle hay : List Char) : Bool :=
  beginsWith needle hay ||
    (match hay with
     | [] => false
     | _ :: t => listContains needle t)

/-! ### The ANSI escape pattern of `_clean_output`

The source compiles the raw pattern ESC `(?:[@-Z\\-_]|\[[0-?]*[ ../]*[@-~])`
(the third class is the range from space to the slash) and removes all
non-overlapping matches with `re.sub`.  The three character classes of the
bracketed alternative are pairwise disjoint and disjoint from each other's
follow sets, so Python's backtracking search is equivalent to the
maximal-munch scan implemented here. -/

def isAnsiSingleFinal (c : Char) : Bool :=
  ('@' ≤ c && c ≤ 'Z') || ('\x5c' ≤ c && c ≤ '_')

def isAnsiParam (c : Char) : Bool := '0' ≤ c && c ≤ '?'

def isAnsiInter (c : Char) : Bool := ' ' ≤ c && c ≤ '/'

def isAnsiFinal (c : Char) : Bool := '@' ≤ c && c ≤ '~'

/-- Given the characters after an ESC, return the remainder of the list after
the escape sequence, or `none` if the ESC does not start a match of the
pattern. -/
def ansiTail (l : List Char) : Option (List Char) :=
  match l with
  | [] => none
  | c :: rest =>
    if isAnsiSingleFinal c then some rest
    else if c = '[' then
      match (rest.dropWhile isAnsiParam).dropWhile isAnsiInter with
      | d :: r3 => if isAnsiFinal d then some r3 else none
      | [] => none
    else none

/-- Fueled scan for `re.sub(ansi, '', s)`; every step consumes at least one
character, so fuel `l.length` (supplied by `ansiSub`) is always enough. -/
def ansiSubF : Nat → List Char → List Char
  | 0, l => l
  | _ + 1, [] => []
  | fuel + 1, c :: rest =>
    if c = '\x1b' then
      match ansiTail rest with
      | some r => ansiSubF fuel r
      | none => c :: ansiSubF fuel rest
    else c :: ansiSubF fuel rest

/-- The ANSI-escape `re.sub` of `_clean_output` (pattern as in `ansiTail`). -/
def ansiSub (l : List Char) : List Char := ansiSubF l.length l

/-- Does the string contain a match of the ANSI escape pattern anywhere? -/
def hasAnsi : List Char → Bool
  | [] => false
  | c :: rest => (c = '\x1b' && (ansiTail rest).isSome) || hasAnsi rest

/-- Python `s.replace('\r\n', '\n')` (left-to-right, non-overlapping). -/
def replaceCRLF : List Char → List Char
  | [] => []
  | [c] => [c]
  | c1 :: c2 :: rest =>
    if c1 = '\r' && c2 = '\n' then '\n' :: replaceCRLF rest
    else c1 :: replaceCRLF (c2 :: rest)

/-- Python `s.replace('\r', '\n')`. -/
def mapCR (l : List Char) : List Char :=
  l.map (fun c => if c = '\r' then '\n' else c)

/-- Helper for `splitNL`: prepend a character to the first piece. -/
def consHead (c : Char) : List (List Char) → List (List Char)
  | [] => [[c]]
  | l :: ls => (c :: l) :: ls

/-- Python `s.split('\n')`; always returns at least one piece. -/
def splitNL : List Char → List (List Char)
  | [] => [[]]
  | c :: rest => if c = '\n' then [] :: splitNL rest else consHead c (splitNL rest)

/-- Python `'\n'.join(ls)`. -/
def joinNL : List (List Char) → List Char
  | [] => []
  | [l] => l
  | l :: ls => l ++ '\n' :: joinNL ls

/-- `if lines and command in lines[0]: lines = lines[1:]` from `_clean_output`
(`lines` is never empty there, since `str.split` returns at least one piece). -/
def echoDrop (command : List Char) (lines : List (List Char)) : List (List Char) :=
  match lines with
  | [] => []
  | l0 :: rest => if listContains command l0 then rest else l0 :: rest

/-- `while lines and not lines[-1].strip(): lines.pop()` from `_clean_output`. -/
def dropTrailBlank (ls : List (List Char)) : List (List Char) :=
  (ls.reverse.dropWhile isBlankLine).reverse

/-- The line-list stage of `_clean_output`: ANSI removal, `\r\n`/`\r`
normalization, split into lines, command-echo removal by substring
containment on the first line, removal of leading and trailing blank
lines. -/
def cleanLines (output command : List Char) : List (List Char) :=
  dropTrailBlank
    ((echoDrop command (splitNL (mapCR (replaceCRLF (ansiSub output))))).dropWhile
      isBlankLine)

/-- `_clean_output(output, command)` of `console_executor.py`:
the line stages of `cleanLines`, then right-strip of each line, join with
newlines, and a final strip. -/
def cleanOutput (output command : List Char) : List Char :=
  pyStrip (joinNL ((cleanLines output command).map pyRstrip))

/-! ### The prompt regular expressions

`execute_via_console` builds
  `cisco_prompt  = [\w\-\.]+(\([^\)]+\))?[>#]\s*$`
  `simple_prompt = [>#]\s*$`
  `combined_prompt = (cisco_prompt|simple_prompt)`.
Both alternatives are anchored at the end of the input, and every character
class is disjoint from the character that follows it in the pattern, so a
match starting at a position exists iff the deterministic maximal-munch scan
below succeeds, and a successful match always extends to the end of the
string (the trailing whitespace run, `$` matching at the end or before a
final newline, which is itself whitespace).  `\w` is modelled on its ASCII
subset `[A-Za-z0-9_]`; the concrete prompts under test are ASCII. -/

def isHostChar (c : Char) : Bool := c.isAlphanum || c = '_' || c = '-' || c = '.'

/-- Tail of both prompt patterns: one of `>`/`#` followed by whitespace
up to the end of the string. -/
def tailGtHash : List Char → Bool
  | c :: r => (c = '>' || c = '#') && r.all pyIsSpace
  | [] => false

/-- Does `cisco_prompt` match starting at the head of `l`? -/
def matchCiscoAt (l : List Char) : Bool :=
  let host := l.takeWhile isHostChar
  let rest := l.dropWhile isHostChar
  if host = [] then false
  else
    match rest with
    | '(' :: r2 =>
      let inner := r2.takeWhile (fun c => !(c = ')'))
      let r3 := r2.dropWhile (fun c => !(c = ')'))
      if inner = [] then false
      else
        match r3 with
        | ')' :: r4 => tailGtHash r4
        | _ => false
    | _ => tailGtHash rest

/-- Does `simple_prompt` match starting at the head of `l`? -/
def matchSimpleAt (l : List Char) : Bool := tailGtHash l

/-- Does `combined_prompt` match starting at the head of `l`?  Python tries
the first alternative first; both consume to the end of the string, so for
counting matches only existence matters. -/
def matchCombinedAt (l : List Char) : Bool := matchCiscoAt l || matchSimpleAt l

/-- Number of non-overlapping matches of `combined_prompt` found by a
left-to-right scan (the semantics of `re.finditer`): at each position try to
match; on success the match extends to the end of the string, so the scan
resumes past the end. -/
def countCombinedF : Nat → List Char → Nat
  | 0, _ => 0
  | _ + 1, [] => 0
  | fuel + 1, l =>
    if matchCombinedAt l then 1 + countCombinedF fuel []
    else countCombinedF fuel l.tail

def countCombined (l : List Char) : Nat := countCombinedF (l.length + 1) l

/-- Modelled from the spec: the prompt `Mode` data model.  The source keeps
only the boolean `in_enable_mode = current_prompt.endswith('#')`; the full
classification (PromptSnapshot Mode of section 3 of the spec: a trailing
`>` is user exec, a bare trailing `#` is privileged exec, a parenthesized
suffix before `#` is a configuration mode, `(config)` being global
configuration and any other parenthetical a sub-configuration mode) exists
only in the spec's data model and is embedded here from its words. -/
inductive Mode
  | unauthenticated
  | userExec
  | privilegedExec
  | configGlobal
  | configSub
deriving DecidableEq

/-- Modelled from the spec: the parenthetical content right before a trailing
`#`, if the prompt ends in `)#`. -/
def parenContent (p : List Char) : Option (List Char) :=
  match p.reverse with
  | '#' :: ')' :: r =>
    let inner := r.takeWhile (fun c => !(c = '('))
    let r2 := r.dropWhile (fun c => !(c = '('))
    match r2 with
    | '(' :: _ => some inner.reverse
    | _ => none
  | _ => none

/-- Modelled from the spec: Mode derived purely from the trailing characters
and parenthetical content of the prompt. -/
def classifyMode (p : List Char) : Mode :=
  match p.getLast? with
  | some '>' => .userExec
  | some '#' =>
    match parenContent p with
    | some inner => if inner = "config".toList then .configGlobal else .configSub
    | none => .privilegedExec
  | _ => .unauthenticated

/-- `current_prompt.endswith('#')` of `execute_via_console` (line 202): the
only mode inference the source itself performs. -/
def endsInHash (p : List Char) : Bool :=
  match p.getLast? with
  | some '#' => true
  | _ => false

/-- The last-resort heuristic of the prompt-detection retry loop
(`re.search` for a trailing `[>#]` followed by whitespace in the buffer). -/
def heuristicPromptLike (b : List Char) : Bool :=
  match b.reverse.dropWhile pyIsSpace with
  | c :: _ => c = '>' || c = '#'
  | [] => false

/-! ### The session model

`execute_via_console` drives a `pexpect` child through a fixed sequence of
`expect` calls.  The transport is modelled by a script: a list of events,
one consumed per `expect` call, saying how that call returned.
`Ev.m idx before after` is a match of pattern number `idx` of the pattern
list passed to that call, with `child.before = before` and
`child.after = after`; `Ev.t before` is a timeout with `before` the data
read but not matched (`pexpect` leaves it in the buffer, so both
`child.before` and `child.buffer` hold it); `Ev.eof` raises `pexpect.EOF`.
An exhausted script behaves as a silent transport: every further `expect`
times out with empty `before`.  A match index out of range for a call's
pattern list is interpreted as that call's timeout outcome (for calls that
list `pexpect.TIMEOUT`) or as its last alternative; the claims below only
use scripts with in-range indexes.

Actions record every write the state machine performs, in order. -/

inductive Ev
  | m (idx : Nat) (before after : List Char)
  | t (before : List Char)
  | eof
deriving DecidableEq

inductive Act
  | sendConsolePass
  | sendConnect
  | sendCR
  | sendUser
  | sendDevPass
  | sendEnable
  | sendEnablePass
  | sendCmd (c : List Char)
  | sendSpace
  | sendYes
  | sendEsc
  | sendExit
deriving DecidableEq

/-- Reasons carried by the `RuntimeError` wrapper (`except Exception` at the
bottom of `_ssh_console_execute` / `_ssh_config_execute`): any exception
other than `pexpect.TIMEOUT` / `pexpect.EOF` raised inside the body, which
includes the builtin `TimeoutError`, `ConnectionError` and `ValueError`
raised by the code itself, is re-raised as `RuntimeError`. -/
inductive RTag
  | authTimeout
  | authEof
  | noDeviceCreds
  | noDevicePass
  | promptDetectFail
  | afterNotString
  | noneSend
  | cfgPromptDetectFail
deriving DecidableEq

/-- Errors as surfaced to the caller of `execute_via_console` /
`execute_config_commands`.  `timeout buffer before` is the `TimeoutError`
built by the `except pexpect.TIMEOUT` handler from `child.buffer` and
`child.before`; `connection` is the `ConnectionError` of the
`except pexpect.EOF` handler; `runtime` is the catch-all `RuntimeError`.
`missingCredentials` is the distinct error kind named by the spec's
taxonomy; the code model never produces it (claim C2). -/
inductive Err
  | timeout (buffer before : List Char)
  | connection
  | runtime (tag : RTag)
  | missingCredentials
deriving DecidableEq

/-- Python truthiness of an optional string argument (`if not device_user`,
`if device_enable_pass`...): `None` and the empty string are falsy. -/
def pyTruthy (o : Option (List Char)) : Bool :=
  match o with
  | none => false
  | some s => !(s = [])

/-- An `expect` call whose pattern list does not include `pexpect.TIMEOUT`:
a timeout raises (becoming `TimeoutError(child.buffer, child.before)` in the
outer handler), EOF raises `pexpect.EOF` (becoming `ConnectionError`). -/
def expectHard (script : List Ev) : List Ev × Except Err (Nat × List Char × List Char) :=
  match script with
  | [] => ([], .error (.timeout [] []))
  | .m i b a :: r => (r, .ok (i, b, a))
  | .t b :: r => (r, .error (.timeout b b))
  | .eof :: r => (r, .error .connection)

/-- Console-server authentication (lines 75-91): expect
`[password, consoles>, TIMEOUT, EOF]`; on a password prompt send the
console-server password and expect `consoles>`; the TIMEOUT and EOF branches
raise builtin `TimeoutError` / `ConnectionError`, which the catch-all turns
into `RuntimeError`. -/
def phaseAuth (script : List Ev) : List Ev × List Act × Except Err Unit :=
  match script with
  | [] => ([], [], .error (.runtime .authTimeout))
  | .m 0 _ _ :: r =>
    (match expectHard r with
     | (r2, .ok _) => (r2, [.sendConsolePass], .ok ())
     | (r2, .error e) => (r2, [.sendConsolePass], .error e))
  | .m 1 _ _ :: r => (r, [], .ok ())
  | .m _ _ _ :: r => (r, [], .error (.runtime .authTimeout))
  | .t _ :: r => (r, [], .error (.runtime .authTimeout))
  | .eof :: r => (r, [], .error (.runtime .authEof))

/-- Console attach (lines 96-121): `sendline(connect <key>)`, expect the
"Connected to CML terminalserver" marker, expect the "Escape character is"
marker, drain pending bytes non-blockingly (no scripted event), then send
two carriage returns to trigger a device prompt. -/
def phaseAttach (script : List Ev) : List Ev × List Act × Except Err Unit :=
  match expectHard script with
  | (r1, .error e) => (r1, [.sendConnect], .error e)
  | (r1, .ok _) =>
    match expectHard r1 with
    | (r2, .error e) => (r2, [.sendConnect], .error e)
    | (r2, .ok _) => (r2, [.sendConnect, .sendCR, .sendCR], .ok ())

/-- The retry loop of prompt detection (lines 153-174): up to 3 attempts of
send-CR then expect `[cisco, simple, TIMEOUT]`; on a match (index < 2) break
with `child.after`; after 3 failures apply the prompt-like heuristic to the
last `child.before`.  If the heuristic finds a prompt-like suffix the code
proceeds, but `child.after` is then the `pexpect.TIMEOUT` class, so
`child.after.strip()` on line 198 raises `AttributeError`, which the
catch-all turns into `RuntimeError`; otherwise line 171 raises a builtin
`TimeoutError`, also wrapped into `RuntimeError`. -/
def retryLoop : Nat → List Char → List Ev → List Ev × List Act × Except Err (List Char)
  | 0, lastB, r =>
    if heuristicPromptLike lastB then (r, [], .error (.runtime .afterNotString))
    else (r, [], .error (.runtime .promptDetectFail))
  | n + 1, _, r =>
    match r with
    | .m 0 _ a :: rr => (rr, [.sendCR], .ok a)
    | .m 1 _ a :: rr => (rr, [.sendCR], .ok a)
    | .m _ b _ :: rr =>
      (match retryLoop n b rr with
       | (r2, acts, res) => (r2, .sendCR :: acts, res))
    | .t b :: rr =>
      (match retryLoop n b rr with
       | (r2, acts, res) => (r2, .sendCR :: acts, res))
    | .eof :: rr => (rr, [.sendCR], .error .connection)
    | [] =>
      (match retryLoop n [] [] with
       | (r2, acts, res) => (r2, .sendCR :: acts, res))

/-- Device login for the username/login branch of prompt detection
(lines 176-186): requires a truthy device username (`ValueError` otherwise,
wrapped into `RuntimeError`), sends it, expects a password prompt, sends the
device password (`sendline(None)` raises inside pexpect if it was never
supplied), expects `cisco_prompt` and returns `child.after`. -/
def deviceLogin (du dp : Option (List Char)) (r : List Ev) :
    List Ev × List Act × Except Err (List Char) :=
  if pyTruthy du then
    match expectHard r with
    | (r2, .error e) => (r2, [.sendUser], .error e)
    | (r2, .ok _) =>
      match dp with
      | none => (r2, [.sendUser], .error (.runtime .noneSend))
      | some _ =>
        match expectHard r2 with
        | (r3, .error e) => (r3, [.sendUser, .sendDevPass], .error e)
        | (r3, .ok (_, _, a)) => (r3, [.sendUser, .sendDevPass], .ok a)
  else (r, [], .error (.runtime .noDeviceCreds))

/-- Prompt detection (lines 139-195): expect
`[username, login, password, cisco, simple, TIMEOUT]`.  Returns
`child.after` as of the successful prompt match. -/
def phaseDetect (du dp : Option (List Char)) (script : List Ev) :
    List Ev × List Act × Except Err (List Char) :=
  match script with
  | [] => retryLoop 3 [] []
  | .m 0 _ _ :: r => deviceLogin du dp r
  | .m 1 _ _ :: r => deviceLogin du dp r
  | .m 2 _ _ :: r =>
    if pyTruthy dp then
      match expectHard r with
      | (r2, .error e) => (r2, [.sendDevPass], .error e)
      | (r2, .ok (_, _, a)) => (r2, [.sendDevPass], .ok a)
    else (r, [], .error (.runtime .noDevicePass))
  | .m 3 _ a :: r => (r, [], .ok a)
  | .m 4 _ a :: r => (r, [], .ok a)
  | .m _ b _ :: r => retryLoop 3 b r
  | .t b :: r => retryLoop 3 b r
  | .eof :: r => (r, [], .error .connection)

/-- Mode normalization (lines 198-212): compute
`current_prompt = child.after.strip() if child.after else "unknown"` and
`in_enable_mode = current_prompt.endswith('#')`; if an enable password was
supplied (truthy) and the session is not in enable mode, send `enable`,
expect `[password, cisco_prompt]`, and on a password prompt send the enable
password and expect `#`. -/
def phaseEnable (ep : Option (List Char)) (after : List Char) (script : List Ev) :
    List Ev × List Act × Except Err Unit :=
  let currentPrompt := if after = [] then "unknown".toList else pyStrip after
  if pyTruthy ep && !(endsInHash currentPrompt) then
    match script with
    | .m 0 _ _ :: r =>
      (match expectHard r with
       | (r2, .error e) => (r2, [.sendEnable, .sendEnablePass], .error e)
       | (r2, .ok _) => (r2, [.sendEnable, .sendEnablePass], .ok ()))
    | .m _ _ _ :: r => (r, [.sendEnable], .ok ())
    | .t b :: r => (r, [.sendEnable], .error (.timeout b b))
    | .eof :: r => (r, [.sendEnable], .error .connection)
    | [] => ([], [.sendEnable], .error (.timeout [] []))
  else (script, [], .ok ())

/-- Buffer-boundary cleanup before the command (lines 215-216): send a
carriage return and consume the echoed prompt once. -/
def phaseReady (script : List Ev) : List Ev × List Act × Except Err Unit :=
  match expectHard script with
  | (r, .error e) => (r, [.sendCR], .error e)
  | (r, .ok _) => (r, [.sendCR], .ok ())

/-- The command-execution loop (lines 231-297): up to `max_iterations = 50`
iterations of expect
`[cisco, simple, "--More--", "<--- More --->", "(yes/no)", confirm]`.
`child.before` is appended to the chunk list when non-empty; a prompt match
breaks, a pagination match sends one space and continues, a confirmation
match sends `yes` and continues.  On a timeout the partial `before` is
appended; if any output was accumulated a recovery probe sends a carriage
return and expects a prompt for 2 seconds — success appends its `before` and
breaks, failure re-raises the timeout, whose handler reads `child.buffer` /
`child.before` as left by the failed recovery expect.  Exhausting the 50
iterations returns the collected chunks without raising. -/
def commandLoop : Nat → List (List Char) → List Ev → List Ev × List Act × Except Err (List (List Char))
  | 0, buf, script => (script, [], .ok buf)
  | n + 1, buf, script =>
    match script with
    | .m i b _ :: r =>
      let buf2 := if b = [] then buf else buf ++ [b]
      if i ≤ 1 then (r, [], .ok buf2)
      else if i ≤ 3 then
        match commandLoop n buf2 r with
        | (r2, acts, res) => (r2, .sendSpace :: acts, res)
      else
        match commandLoop n buf2 r with
        | (r2, acts, res) => (r2, .sendYes :: acts, res)
    | .t b :: r =>
      let buf2 := if b = [] then buf else buf ++ [b]
      if buf2 = [] then (r, [], .error (.timeout b b))
      else
        match r with
        | .m _ b2 _ :: r2 =>
          (r2, [.sendCR], .ok (if b2 = [] then buf2 else buf2 ++ [b2]))
        | .t b2 :: r2 => (r2, [.sendCR], .error (.timeout b2 b2))
        | .eof :: r2 => (r2, [.sendCR], .error .connection)
        | [] => ([], [.sendCR], .error (.timeout b b))
    | .eof :: r => (r, [], .error .connection)
    | [] =>
      if buf = [] then ([], [], .error (.timeout [] []))
      else ([], [.sendCR], .error (.timeout [] []))

/-- Console detach (lines 306-315): send Ctrl-], expect `consoles>` for 5
seconds (a timeout is only logged), send `exit` on success, close. -/
def phaseDetach (script : List Ev) : List Ev × List Act × Except Err Unit :=
  match script with
  | .m _ _ _ :: r => (r, [.sendEsc, .sendExit], .ok ())
  | .t _ :: r => (r, [.sendEsc], .ok ())
  | .eof :: r => (r, [.sendEsc], .error .connection)
  | [] => ([], [.sendEsc], .ok ())

/-- `execute_via_console` (its inner `_ssh_console_execute`): the full
sequence console-server auth, console attach, prompt stabilization and
device auth, mode normalization, buffer cleanup, command dispatch plus the
output-draining loop, detach, and `_clean_output` on the joined chunks
(skipped when the joined output is empty).  Returns the chronological list
of writes performed and the result as surfaced to the caller. -/
def executeViaConsole (du dp ep : Option (List Char)) (command : List Char)
    (script : List Ev) : List Act × Except Err (List Char) :=
  match phaseAuth script with
  | (_, a1, .error e) => (a1, .error e)
  | (s1, a1, .ok _) =>
    match phaseAttach s1 with
    | (_, a2, .error e) => (a1 ++ a2, .error e)
    | (s2, a2, .ok _) =>
      match phaseDetect du dp s2 with
      | (_, a3, .error e) => (a1 ++ a2 ++ a3, .error e)
      | (s3, a3, .ok after) =>
        match phaseEnable ep after s3 with
        | (_, a4, .error e) => (a1 ++ a2 ++ a3 ++ a4, .error e)
        | (s4, a4, .ok _) =>
          match phaseReady s4 with
          | (_, a5, .error e) => (a1 ++ a2 ++ a3 ++ a4 ++ a5, .error e)
          | (s5, a5, .ok _) =>
            match commandLoop 50 [] s5 with
            | (_, a6, .error e) =>
              (a1 ++ a2 ++ a3 ++ a4 ++ a5 ++ .sendCmd command :: a6, .error e)
            | (s6, a6, .ok chunks) =>
              match phaseDetach s6 with
              | (_, a7, .error e) =>
                (a1 ++ a2 ++ a3 ++ a4 ++ a5 ++ .sendCmd command :: (a6 ++ a7), .error e)
              | (_, a7, .ok _) =>
                (a1 ++ a2 ++ a3 ++ a4 ++ a5 ++ .sendCmd command :: (a6 ++ a7),
                 .ok (if chunks.flatten = [] then [] else cleanOutput chunks.flatten command))

/-- `current_prompt.endswith('>')` test of `execute_config_commands`
(line 505). -/
def endsInGt (p : List Char) : Bool :=
  match p.getLast? with
  | some '>' => true
  | _ => false

/-- The batch variant of the prompt-detection retry loop (lines 475-484):
up to 3 attempts of send-CR then `expect([any_prompt], 5)` inside a
try/except TIMEOUT; after 3 failures line 484 raises a builtin
`TimeoutError`, wrapped into `RuntimeError` by the catch-all. -/
def cfgRetryLoop : Nat → List Ev → List Ev × List Act × Except Err (List Char)
  | 0, r => (r, [], .error (.runtime .cfgPromptDetectFail))
  | n + 1, r =>
    match r with
    | .m _ _ a :: rr => (rr, [.sendCR], .ok a)
    | .t _ :: rr =>
      (match cfgRetryLoop n rr with
       | (r2, acts, res) => (r2, .sendCR :: acts, res))
    | .eof :: rr => (rr, [.sendCR], .error .connection)
    | [] =>
      (match cfgRetryLoop n [] with
       | (r2, acts, res) => (r2, .sendCR :: acts, res))

/-- Prompt detection of `execute_config_commands` (lines 465-499): expect
`[username, login, password, any_prompt, TIMEOUT]`. -/
def phaseCfgDetect (du dp : Option (List Char)) (script : List Ev) :
    List Ev × List Act × Except Err (List Char) :=
  match script with
  | [] => cfgRetryLoop 3 []
  | .m 0 _ _ :: r => deviceLogin du dp r
  | .m 1 _ _ :: r => deviceLogin du dp r
  | .m 2 _ _ :: r =>
    if pyTruthy dp then
      match expectHard r with
      | (r2, .error e) => (r2, [.sendDevPass], .error e)
      | (r2, .ok (_, _, a)) => (r2, [.sendDevPass], .ok a)
    else (r, [], .error (.runtime .noDevicePass))
  | .m 3 _ a :: r => (r, [], .ok a)
  | .m _ _ _ :: r => cfgRetryLoop 3 r
  | .t _ :: r => cfgRetryLoop 3 r
  | .eof :: r => (r, [], .error .connection)

/-- Enable-mode entry of `execute_config_commands` (lines 501-511):
`current_prompt = child.after.strip() if child.after else ""`; if it ends in
`>`, send `enable` and expect `[password, #]`; the enable password is sent
only when the match was the password prompt and the password is truthy. -/
def phaseCfgEnable (ep : Option (List Char)) (after : List Char) (script : List Ev) :
    List Ev × List Act × Except Err Unit :=
  let currentPrompt := if after = [] then [] else pyStrip after
  if endsInGt currentPrompt then
    match script with
    | .m 0 _ _ :: r =>
      if pyTruthy ep then
        match expectHard r with
        | (r2, .error e) => (r2, [.sendEnable, .sendEnablePass], .error e)
        | (r2, .ok _) => (r2, [.sendEnable, .sendEnablePass], .ok ())
      else (r, [.sendEnable], .ok ())
    | .m _ _ _ :: r => (r, [.sendEnable], .ok ())
    | .t b :: r => (r, [.sendEnable], .error (.timeout b b))
    | .eof :: r => (r, [.sendEnable], .error .connection)
    | [] => ([], [.sendEnable], .error (.timeout [] []))
  else (script, [], .ok ())

/-- The per-command loop of `execute_config_commands` (lines 520-533): for
each command, `sendline(cmd)`, settle delay, expect
`[config_prompt, any_prompt]` (a timeout raises and aborts the batch), and
append `"{cmd}: {output.strip()}"` — or `"{cmd}: OK"` when `child.before`
is empty — to the accumulated output list. -/
def cfgCommands : List (List Char) → List (List Char) → List Ev →
    List Ev × List Act × Except Err (List (List Char))
  | [], acc, script => (script, [], .ok acc)
  | cmd :: rest, acc, script =>
    match script with
    | .m _ b _ :: r =>
      let entry :=
        if b = [] then cmd ++ ": OK".toList else cmd ++ ": ".toList ++ pyStrip b
      (match cfgCommands rest (acc ++ [entry]) r with
       | (r2, acts, res) => (r2, .sendCmd cmd :: acts, res))
    | .t b :: r => (r, [.sendCmd cmd], .error (.timeout b b))
    | .eof :: r => (r, [.sendCmd cmd], .error .connection)
    | [] => ([], [.sendCmd cmd], .error (.timeout [] []))

/-- `execute_config_commands` (its inner `_ssh_config_execute`): console
auth and attach as in `execute_via_console`, batch-variant prompt detection
and enable entry, `configure terminal`, the per-command loop, `end`, detach,
and the newline-join of the accumulated per-command entries. -/
def executeConfigCommands (du dp ep : Option (List Char))
    (commands : List (List Char)) (script : List Ev) :
    List Act × Except Err (List Char) :=
  match phaseAuth script with
  | (_, a1, .error e) => (a1, .error e)
  | (s1, a1, .ok _) =>
    match phaseAttach s1 with
    | (_, a2, .error e) => (a1 ++ a2, .error e)
    | (s2, a2, .ok _) =>
      match phaseCfgDetect du dp s2 with
      | (_, a3, .error e) => (a1 ++ a2 ++ a3, .error e)
      | (s3, a3, .ok after) =>
        match phaseCfgEnable ep after s3 with
        | (_, a4, .error e) => (a1 ++ a2 ++ a3 ++ a4, .error e)
        | (s4, a4, .ok _) =>
          match expectHard s4 with
          | (_, .error e) =>
            (a1 ++ a2 ++ a3 ++ a4 ++ [.sendCmd "configure terminal".toList], .error e)
          | (s5, .ok _) =>
            match cfgCommands commands ["Entered configuration mode".toList] s5 with
            | (_, a6, .error e) =>
              (a1 ++ a2 ++ a3 ++ a4 ++ .sendCmd "configure terminal".toList :: a6, .error e)
            | (s6, a6, .ok acc) =>
              match expectHard s6 with
              | (_, .error e) =>
                (a1 ++ a2 ++ a3 ++ a4 ++ .sendCmd "configure terminal".toList ::
                  (a6 ++ [.sendCmd "end".toList]), .error e)
              | (s7, .ok _) =>
                match phaseDetach s7 with
                | (_, a8, .error e) =>
                  (a1 ++ a2 ++ a3 ++ a4 ++ .sendCmd "configure terminal".toList ::
                    (a6 ++ .sendCmd "end".toList :: a8), .error e)
                | (_, a8, .ok _) =>
                  (a1 ++ a2 ++ a3 ++ a4 ++ .sendCmd "configure terminal".toList ::
                    (a6 ++ .sendCmd "end".toList :: a8),
                   .ok (joinNL (acc ++ ["Exited configuration mode".toList])))

deriving instance DecidableEq for Except

/-! ### Helper lemmas: dropWhile, strips, split and join -/

theorem dwHeadNot {α : Type} (p : α → Bool) (l : List α) :
    l.dropWhile p = [] ∨ ∃ c t, l.dropWhile p = c :: t ∧ p c = false := by
  induction l with
  | nil => exact Or.inl rfl
  | cons a l ih =>
    cases hpa : p a with
    | true => simpa [List.dropWhile_cons, hpa] using ih
    | false => exact Or.inr ⟨a, l, by simp [List.dropWhile_cons, hpa], hpa⟩

theorem dwIdem {α : Type} (p : α → Bool) (l : List α) :
    (l.dropWhile p).dropWhile p = l.dropWhile p := by
  rcases dwHeadNot p l with h | ⟨c, t, h, hc⟩
  · simp [h]
  · simp [h, List.dropWhile_cons, hc]

theorem dwAppendNil {α : Type} (p : α → Bool) (xs ys : List α)
    (h : xs.dropWhile p = []) : (xs ++ ys).dropWhile p = ys.dropWhile p := by
  induction xs with
  | nil => simp
  | cons a t ih =>
    cases hpa : p a with
    | true =>
      rw [List.dropWhile_cons, hpa] at h
      simpa [List.dropWhile_cons, hpa] using ih (by simpa using h)
    | false => simp [List.dropWhile_cons, hpa] at h

theorem dwAppendCons {α : Type} (p : α → Bool) (xs ys : List α) (c : α) (t : List α)
    (h : xs.dropWhile p = c :: t) : (xs ++ ys).dropWhile p = (c :: t) ++ ys := by
  induction xs with
  | nil => simp at h
  | cons a u ih =>
    cases hpa : p a with
    | true =>
      rw [List.dropWhile_cons, hpa] at h
      simp only [List.cons_append, List.dropWhile_cons, hpa, if_true]
      simpa using ih (by simpa using h)
    | false =>
      rw [List.dropWhile_cons, hpa] at h
      simp only [Bool.false_eq_true, if_false] at h
      rw [List.cons.injEq] at h
      obtain ⟨rfl, rfl⟩ := h
      simp [List.dropWhile_cons, hpa]


theorem dwKeepsWitness {α : Type} (p : α → Bool) (m : List α)
    (h : ∃ x ∈ m, p x = false) : ∃ x ∈ m.dropWhile p, p x = false := by
  induction m with
  | nil => simpa using h
  | cons a t ih =>
    cases hpa : p a with
    | false => exact ⟨a, by simp [List.dropWhile_cons, hpa], hpa⟩
    | true =>
      obtain ⟨x, hx, hxs⟩ := h
      rcases List.mem_cons.mp hx with rfl | hxt
      · rw [hpa] at hxs; cases hxs
      · simpa [List.dropWhile_cons, hpa] using ih ⟨x, hxt, hxs⟩

theorem getLast?_decomp {α : Type} (l : List α) (x : α) (h : l.getLast? = some x) :
    ∃ t, l = t ++ [x] := by
  induction l with
  | nil => simp at h
  | cons a t ih =>
    cases t with
    | nil => simp [List.getLast?] at h; exact ⟨[], by simp [h]⟩
    | cons b u =>
      rw [List.getLast?_cons_cons] at h
      obtain ⟨t2, ht2⟩ := ih h
      exact ⟨a :: t2, by simp [ht2]⟩

theorem pyRstrip_idem (l : List Char) : pyRstrip (pyRstrip l) = pyRstrip l := by
  unfold pyRstrip; rw [List.reverse_reverse, dwIdem]

theorem pyRstrip_shape (l : List Char) :
    pyRstrip l = [] ∨ ∃ t c, pyRstrip l = t ++ [c] ∧ pyIsSpace c = false := by
  rcases dwHeadNot pyIsSpace l.reverse with h | ⟨c, t, h, hc⟩
  · exact Or.inl (by unfold pyRstrip; rw [h]; rfl)
  · exact Or.inr ⟨t.reverse, c, by unfold pyRstrip; rw [h]; simp, hc⟩

theorem pyRstrip_eq_self (l : List Char) (c : Char) (h : l.getLast? = some c)
    (hc : pyIsSpace c = false) : pyRstrip l = l := by
  have hr : l.reverse.head? = some c := by rw [List.head?_reverse]; exact h
  cases hrev : l.reverse with
  | nil => rw [hrev] at hr; simp at hr
  | cons a t =>
    rw [hrev] at hr
    simp at hr
    subst hr
    unfold pyRstrip
    rw [hrev]
    have hdw : List.dropWhile pyIsSpace (a :: t) = a :: t := by
      simp [List.dropWhile_cons, hc]
    rw [hdw, ← hrev, List.reverse_reverse]

theorem pyLstrip_eq_self (l : List Char) (c : Char) (h : l.head? = some c)
    (hc : pyIsSpace c = false) : pyLstrip l = l := by
  cases l with
  | nil => simp at h
  | cons a t =>
    simp at h
    subst h
    unfold pyLstrip
    simp [List.dropWhile_cons, hc]

theorem mem_of_mem_pyRstrip (a : Char) (l : List Char) (h : a ∈ pyRstrip l) :
    a ∈ l := by
  unfold pyRstrip at h
  rw [List.mem_reverse] at h
  have h2 := (l.reverse.dropWhile_sublist pyIsSpace).mem h
  rwa [List.mem_reverse] at h2

theorem mem_of_mem_pyLstrip (a : Char) (l : List Char) (h : a ∈ pyLstrip l) :
    a ∈ l :=
  (l.dropWhile_sublist pyIsSpace).mem h

theorem blank_false_iff (l : List Char) :
    isBlankLine l = false ↔ ∃ x ∈ l, pyIsSpace x = false := by
  unfold isBlankLine
  induction l with
  | nil => simp
  | cons a t ih =>
    cases hpa : pyIsSpace a with
    | false => simp [List.all_cons, hpa]
    | true => simpa [List.all_cons, hpa] using ih

theorem notBlank_pyLstrip (l : List Char) (h : isBlankLine l = false) :
    isBlankLine (pyLstrip l) = false := by
  rw [blank_false_iff] at h ⊢
  exact dwKeepsWitness pyIsSpace l h

theorem notBlank_pyRstrip (l : List Char) (h : isBlankLine l = false) :
    isBlankLine (pyRstrip l) = false := by
  rw [blank_false_iff] at h ⊢
  obtain ⟨x, hx, hxs⟩ := h
  obtain ⟨y, hy, hys⟩ :=
    dwKeepsWitness pyIsSpace l.reverse ⟨x, List.mem_reverse.mpr hx, hxs⟩
  exact ⟨y, by unfold pyRstrip; rw [List.mem_reverse]; exact hy, hys⟩

theorem pyLstrip_shape (l : List Char) (h : isBlankLine l = false) :
    ∃ c t, pyLstrip l = c :: t ∧ pyIsSpace c = false := by
  rcases dwHeadNot pyIsSpace l with hn | ⟨c, t, hh, hc⟩
  · rw [List.dropWhile_eq_nil_iff] at hn
    rw [blank_false_iff] at h
    obtain ⟨x, hx, hxs⟩ := h
    rw [hn x hx] at hxs
    cases hxs
  · exact ⟨c, t, hh, hc⟩

theorem getLast?_dropWhile_concat (p : Char → Bool) (t : List Char) (c : Char)
    (hc : p c = false) : ((t ++ [c]).dropWhile p).getLast? = some c := by
  induction t with
  | nil => simp [List.dropWhile_cons, hc]
  | cons a t ih =>
    cases hpa : p a with
    | true => simpa [List.dropWhile_cons, hpa] using ih
    | false =>
      simp only [List.cons_append, List.dropWhile_cons, hpa]
      simp only [Bool.false_eq_true, if_false]
      rw [show a :: (t ++ [c]) = (a :: t) ++ [c] from rfl, List.getLast?_concat]

theorem rstrip_lstrip_rstrip (l : List Char) :
    pyRstrip (pyLstrip (pyRstrip l)) = pyLstrip (pyRstrip l) := by
  rcases pyRstrip_shape l with h | ⟨t, c, h, hc⟩
  · rw [h]; rfl
  · rw [h]
    have hlast : (pyLstrip (t ++ [c])).getLast? = some c :=
      getLast?_dropWhile_concat pyIsSpace t c hc
    exact pyRstrip_eq_self _ c hlast hc

theorem joinNL_cons (l : List Char) (ls : List (List Char)) (h : ls ≠ []) :
    joinNL (l :: ls) = l ++ '\n' :: joinNL ls := by
  cases ls with
  | nil => exact absurd rfl h
  | cons a t => rfl

theorem mem_joinNL (a : Char) (ls : List (List Char)) (h : a ∈ joinNL ls) :
    a = '\n' ∨ ∃ l ∈ ls, a ∈ l := by
  induction ls with
  | nil => simp [joinNL] at h
  | cons x t ih =>
    cases t with
    | nil => exact Or.inr ⟨x, by simp, by simpa [joinNL] using h⟩
    | cons y t2 =>
      rw [joinNL_cons x _ (by simp)] at h
      rcases List.mem_append.mp h with hx | hr
      · exact Or.inr ⟨x, by simp, hx⟩
      · rcases List.mem_cons.mp hr with rfl | h2
        · exact Or.inl rfl
        · rcases ih h2 with hnl | ⟨l, hl, hal⟩
          · exact Or.inl hnl
          · exact Or.inr ⟨l, List.mem_cons_of_mem x hl, hal⟩

theorem getLast?_joinNL_concat (ls : List (List Char)) (l : List Char)
    (h : l ≠ []) : (joinNL (ls ++ [l])).getLast? = l.getLast? := by
  induction ls with
  | nil => simp [joinNL]
  | cons a t ih =>
    rw [List.cons_append, joinNL_cons a _ (by simp)]
    have hlx : l.getLast? = some (l.getLast h) := List.getLast?_eq_getLast l h
    have hne : joinNL (t ++ [l]) ≠ [] := by
      intro hj
      rw [hj, hlx] at ih
      simp at ih
    rw [List.getLast?_append_of_ne_nil _ (by simp)]
    cases hjn : joinNL (t ++ [l]) with
    | nil => exact absurd hjn hne
    | cons b u =>
      rw [List.getLast?_cons_cons, ← hjn, ih]

theorem consHead_ne_nil (c : Char) (ls : List (List Char)) : consHead c ls ≠ [] := by
  cases ls <;> simp [consHead]

theorem splitNL_ne_nil (l : List Char) : splitNL l ≠ [] := by
  induction l with
  | nil => simp [splitNL]
  | cons c rest ih =>
    by_cases h : c = '\n'
    · simp [splitNL, h]
    · simp [splitNL, h]
      exact consHead_ne_nil c (splitNL rest)

theorem mem_splitNL (o : List Char) (pl : List Char) (h : pl ∈ splitNL o)
    (a : Char) (ha : a ∈ pl) : a ∈ o := by
  induction o generalizing pl with
  | nil =>
    simp [splitNL] at h
    subst h
    simp at ha
  | cons c rest ih =>
    by_cases hc : c = '\n'
    · rw [splitNL, if_pos hc] at h
      rcases List.mem_cons.mp h with rfl | h2
      · simp at ha
      · exact List.mem_cons_of_mem c (ih pl h2 ha)
    · rw [splitNL, if_neg hc] at h
      cases hs : splitNL rest with
      | nil => exact absurd hs (splitNL_ne_nil rest)
      | cons p t =>
        rw [hs] at h
        simp [consHead] at h
        rcases h with rfl | h2
        · rcases List.mem_cons.mp ha with rfl | h3
          · simp
          · exact List.mem_cons_of_mem c (ih p (by rw [hs]; simp) h3)
        · exact List.mem_cons_of_mem c (ih pl (by rw [hs]; exact List.mem_cons_of_mem p h2) ha)

theorem noNL_splitNL (o : List Char) (pl : List Char) (h : pl ∈ splitNL o) :
    '\n' ∉ pl := by
  induction o generalizing pl with
  | nil =>
    simp [splitNL] at h
    subst h
    simp
  | cons c rest ih =>
    by_cases hc : c = '\n'
    · rw [splitNL, if_pos hc] at h
      rcases List.mem_cons.mp h with rfl | h2
      · simp
      · exact ih pl h2
    · rw [splitNL, if_neg hc] at h
      cases hs : splitNL rest with
      | nil => exact absurd hs (splitNL_ne_nil rest)
      | cons p t =>
        rw [hs] at h
        simp [consHead] at h
        rcases h with rfl | h2
        · intro hm
          rcases List.mem_cons.mp hm with he | h3
          · exact hc he.symm
          · exact ih p (by rw [hs]; simp) h3
        · exact ih pl (by rw [hs]; exact List.mem_cons_of_mem p h2)

theorem splitNL_no_nl (a : List Char) (h : '\n' ∉ a) : splitNL a = [a] := by
  induction a with
  | nil => rfl
  | cons c rest ih =>
    have hc : ¬ c = '\n' := by
      intro he; exact h (by rw [he]; simp)
    rw [splitNL, if_neg hc, ih (fun hm => h (List.mem_cons_of_mem c hm))]
    rfl

theorem splitNL_append_cons (a rest : List Char) (h : '\n' ∉ a) :
    splitNL (a ++ '\n' :: rest) = a :: splitNL rest := by
  induction a with
  | nil => simp [splitNL]
  | cons c a2 ih =>
    have hc : ¬ c = '\n' := by
      intro he; exact h (by rw [he]; simp)
    rw [List.cons_append, splitNL, if_neg hc,
      ih (fun hm => h (List.mem_cons_of_mem c hm))]
    rfl

theorem splitNL_joinNL (ls : List (List Char)) (h : ls ≠ [])
    (hn : ∀ l ∈ ls, '\n' ∉ l) : splitNL (joinNL ls) = ls := by
  induction ls with
  | nil => exact absurd rfl h
  | cons a t ih =>
    cases t with
    | nil => exact splitNL_no_nl a (hn a (by simp))
    | cons b t2 =>
      rw [joinNL_cons a _ (by simp),
        splitNL_append_cons a _ (hn a (by simp)),
        ih (by simp) (fun l hl => hn l (List.mem_cons_of_mem a hl))]

theorem noCR_mapCR (m : List Char) : '\r' ∉ mapCR m := by
  intro h
  unfold mapCR at h
  rw [List.mem_map] at h
  obtain ⟨x, _, hfx⟩ := h
  by_cases hx : x = '\r'
  · rw [if_pos hx] at hfx; cases hfx
  · rw [if_neg hx] at hfx; exact hx hfx

theorem mapCR_eq_self (m : List Char) (h : '\r' ∉ m) : mapCR m = m := by
  induction m with
  | nil => rfl
  | cons a t ih =>
    have ha : ¬ a = '\r' := fun he => h (List.mem_cons.mpr (Or.inl he.symm))
    have ht := ih (fun hm => h (List.mem_cons_of_mem a hm))
    unfold mapCR at ht ⊢
    simp only [List.map_cons, if_neg ha, ht]

theorem replaceCRLF_eq_self (m : List Char) (h : '\r' ∉ m) : replaceCRLF m = m := by
  induction m with
  | nil => rfl
  | cons a t ih =>
    cases t with
    | nil => rfl
    | cons b u =>
      have ha : ¬ a = '\r' := fun he => h (List.mem_cons.mpr (Or.inl he.symm))
      rw [replaceCRLF, if_neg (by simp [ha]),
        ih (fun hm => h (List.mem_cons_of_mem a hm))]

theorem mem_echoDrop (c : List Char) (lines : List (List Char)) (pl : List Char)
    (h : pl ∈ echoDrop c lines) : pl ∈ lines := by
  cases lines with
  | nil => simpa [echoDrop] using h
  | cons l0 rest =>
    simp only [echoDrop] at h
    by_cases hc : listContains c l0 = true
    · rw [if_pos hc] at h
      exact List.mem_cons_of_mem l0 h
    · rw [if_neg hc] at h
      exact h

theorem mem_cleanLines (o c : List Char) (pl : List Char) (h : pl ∈ cleanLines o c) :
    pl ∈ splitNL (mapCR (replaceCRLF (ansiSub o))) := by
  unfold cleanLines dropTrailBlank at h
  rw [List.mem_reverse] at h
  have h2 := (List.dropWhile_sublist _).mem h
  rw [List.mem_reverse] at h2
  have h3 := (List.dropWhile_sublist _).mem h2
  exact mem_echoDrop _ _ _ h3

theorem noCR_cleanOutput (s c : List Char) : '\r' ∉ cleanOutput s c := by
  intro h
  unfold cleanOutput pyStrip at h
  have h1 := mem_of_mem_pyLstrip _ _ (mem_of_mem_pyRstrip _ _ h)
  rcases mem_joinNL _ _ h1 with hnl | ⟨l, hl, hal⟩
  · cases hnl
  · rw [List.mem_map] at hl
    obtain ⟨pl, hpl, rfl⟩ := hl
    have h2 := mem_of_mem_pyRstrip _ _ hal
    have h3 := mem_splitNL _ _ (mem_cleanLines s c pl hpl) _ h2
    exact noCR_mapCR _ h3

theorem dropTrail_cons (l0 : List Char) (t : List (List Char))
    (h : dropTrailBlank (l0 :: t) ≠ []) :
    ∃ t2, dropTrailBlank (l0 :: t) = l0 :: t2 := by
  unfold dropTrailBlank at h ⊢
  rw [List.reverse_cons] at h ⊢
  rcases dwHeadNot isBlankLine t.reverse with hn | ⟨c2, u, hcu, hc2⟩
  · rw [dwAppendNil _ _ _ hn] at h ⊢
    by_cases hb : isBlankLine l0 = true
    · rw [List.dropWhile_cons, if_pos hb] at h
      simp at h
    · rw [List.dropWhile_cons, if_neg hb] at h ⊢
      exact ⟨[], by simp⟩
  · rw [dwAppendCons _ _ _ _ _ hcu] at h ⊢
    refine ⟨(c2 :: u).reverse, ?_⟩
    rw [show (c2 :: u) ++ [l0] = (c2 :: u) ++ [l0] from rfl, List.reverse_append]
    simp

theorem dropTrail_getLast (ls : List (List Char)) :
    dropTrailBlank ls = [] ∨
    ∃ lN, (dropTrailBlank ls).getLast? = some lN ∧ isBlankLine lN = false := by
  rcases dwHeadNot isBlankLine ls.reverse with h | ⟨c, t, h, hc⟩
  · left; unfold dropTrailBlank; rw [h]; rfl
  · right
    refine ⟨c, ?_, hc⟩
    unfold dropTrailBlank
    rw [h, List.reverse_cons, List.getLast?_concat]

theorem cleanLines_shape (o c : List Char) :
    cleanLines o c = [] ∨
    ∃ l0 t2, cleanLines o c = l0 :: t2 ∧ isBlankLine l0 = false ∧
      ∃ lN, (cleanLines o c).getLast? = some lN ∧ isBlankLine lN = false := by
  rcases dwHeadNot isBlankLine
      (echoDrop c (splitNL (mapCR (replaceCRLF (ansiSub o))))) with hm | ⟨l0, t, hm, hb⟩
  · left; unfold cleanLines; rw [hm]; rfl
  · have hcl : cleanLines o c = dropTrailBlank (l0 :: t) := by
      unfold cleanLines; rw [hm]
    rcases dropTrail_getLast (l0 :: t) with hnil | ⟨lN, hlN, hblN⟩
    · left; rw [hcl, hnil]
    · have hne : dropTrailBlank (l0 :: t) ≠ [] := by
        intro hx; rw [hx] at hlN; simp at hlN
      obtain ⟨t2, ht2⟩ := dropTrail_cons l0 t hne
      right
      exact ⟨l0, t2, by rw [hcl, ht2], hb, lN, by rw [hcl]; exact hlN, hblN⟩

theorem strip_join_eq (l0 : List Char) (t : List (List Char))
    (hb0 : isBlankLine l0 = false)
    (hlast : ∃ lN, (l0 :: t).getLast? = some lN ∧ isBlankLine lN = false) :
    pyStrip (joinNL ((l0 :: t).map pyRstrip)) =
      joinNL (pyLstrip (pyRstrip l0) :: t.map pyRstrip) := by
  cases t with
  | nil =>
    show pyStrip (joinNL [pyRstrip l0]) = joinNL [pyLstrip (pyRstrip l0)]
    show pyStrip (pyRstrip l0) = pyLstrip (pyRstrip l0)
    unfold pyStrip
    exact rstrip_lstrip_rstrip l0
  | cons t1 t2 =>
    obtain ⟨lN, hlN, hblN⟩ := hlast
    have hlN2 : (t1 :: t2).getLast? = some lN := by
      rw [← hlN, List.getLast?_cons_cons]
    obtain ⟨tInit, htI⟩ := getLast?_decomp _ _ hlN2
    have hjoin : joinNL ((l0 :: t1 :: t2).map pyRstrip) =
        pyRstrip l0 ++ '\n' :: joinNL ((t1 :: t2).map pyRstrip) := by
      rw [List.map_cons, joinNL_cons _ _ (by simp)]
    have hrsN : ∃ u cN, pyRstrip lN = u ++ [cN] ∧ pyIsSpace cN = false := by
      rcases pyRstrip_shape lN with hx | hx
      · have hnb := notBlank_pyRstrip lN hblN
        rw [hx] at hnb
        cases hnb
      · exact hx
    obtain ⟨u, cN, hu, hcN⟩ := hrsN
    have hJlast : (joinNL ((t1 :: t2).map pyRstrip)).getLast? = some cN := by
      rw [htI, List.map_append]
      simp only [List.map_cons, List.map_nil]
      rw [getLast?_joinNL_concat _ _ (by rw [hu]; simp), hu, List.getLast?_concat]
    have hJne : joinNL ((t1 :: t2).map pyRstrip) ≠ [] := by
      intro hj; rw [hj] at hJlast; simp at hJlast
    have hlst : pyLstrip (pyRstrip l0 ++ '\n' :: joinNL ((t1 :: t2).map pyRstrip)) =
        pyLstrip (pyRstrip l0) ++ '\n' :: joinNL ((t1 :: t2).map pyRstrip) := by
      obtain ⟨ch, ct, hct, hch⟩ := pyLstrip_shape (pyRstrip l0) (notBlank_pyRstrip l0 hb0)
      unfold pyLstrip at hct ⊢
      rw [dwAppendCons pyIsSpace _ _ ch ct hct, hct]
    have hrst : pyRstrip
        (pyLstrip (pyRstrip l0) ++ '\n' :: joinNL ((t1 :: t2).map pyRstrip)) =
        pyLstrip (pyRstrip l0) ++ '\n' :: joinNL ((t1 :: t2).map pyRstrip) := by
      apply pyRstrip_eq_self _ cN _ hcN
      rw [List.getLast?_append_of_ne_nil _ (by simp)]
      cases hj : joinNL ((t1 :: t2).map pyRstrip) with
      | nil => exact absurd hj hJne
      | cons b u2 => rw [List.getLast?_cons_cons, ← hj, hJlast]
    rw [hjoin]
    unfold pyStrip
    rw [hlst, hrst, joinNL_cons _ _ (by simp)]

theorem cleanOutput_of_cleanLines_nil (s c : List Char) (h : cleanLines s c = []) :
    cleanOutput s c = [] := by
  unfold cleanOutput
  rw [h]
  rfl

theorem noNL_cleanLines (s c pl : List Char) (h : pl ∈ cleanLines s c) : '\n' ∉ pl :=
  noNL_splitNL _ _ (mem_cleanLines s c pl h)

theorem splitNL_cleanOutput_eq (s c : List Char) (l0 : List Char)
    (t2 : List (List Char)) (h : cleanLines s c = l0 :: t2)
    (hb0 : isBlankLine l0 = false)
    (hlast : ∃ lN, (l0 :: t2).getLast? = some lN ∧ isBlankLine lN = false) :
    cleanOutput s c = joinNL (pyLstrip (pyRstrip l0) :: t2.map pyRstrip) ∧
    splitNL (cleanOutput s c) = pyLstrip (pyRstrip l0) :: t2.map pyRstrip := by
  have h1 : cleanOutput s c = joinNL (pyLstrip (pyRstrip l0) :: t2.map pyRstrip) := by
    unfold cleanOutput
    rw [h]
    exact strip_join_eq l0 t2 hb0 hlast
  refine ⟨h1, ?_⟩
  rw [h1]
  apply splitNL_joinNL _ (by simp)
  intro l hl
  rcases List.mem_cons.mp hl with rfl | hl2
  · intro hnl
    exact noNL_cleanLines s c l0 (by rw [h]; simp)
      (mem_of_mem_pyRstrip _ _ (mem_of_mem_pyLstrip _ _ hnl))
  · rw [List.mem_map] at hl2
    obtain ⟨pl, hpl, rfl⟩ := hl2
    intro hnl
    exact noNL_cleanLines s c pl (by rw [h]; exact List.mem_cons_of_mem l0 hpl)
      (mem_of_mem_pyRstrip _ _ hnl)

theorem getLast?_L2 (l0 : List Char) (t2 : List (List Char))
    (hb0 : isBlankLine l0 = false)
    (hlast : ∃ lN, (l0 :: t2).getLast? = some lN ∧ isBlankLine lN = false) :
    ∃ x, (pyLstrip (pyRstrip l0) :: t2.map pyRstrip).getLast? = some x ∧
      isBlankLine x = false := by
  cases t2 with
  | nil =>
    exact ⟨pyLstrip (pyRstrip l0), List.getLast?_singleton _,
      notBlank_pyLstrip _ (notBlank_pyRstrip _ hb0)⟩
  | cons u1 u2 =>
    obtain ⟨lN, hlN, hblN⟩ := hlast
    rw [List.getLast?_cons_cons] at hlN
    obtain ⟨tI, htI⟩ := getLast?_decomp _ _ hlN
    refine ⟨pyRstrip lN, ?_, notBlank_pyRstrip _ hblN⟩
    rw [htI, List.map_append]
    simp only [List.map_cons, List.map_nil]
    rw [show pyLstrip (pyRstrip l0) :: (tI.map pyRstrip ++ [pyRstrip lN]) =
      (pyLstrip (pyRstrip l0) :: tI.map pyRstrip) ++ [pyRstrip lN] from rfl]
    exact List.getLast?_concat _

theorem head?_joinNL_cons (A : List Char) (M : List (List Char)) (ch : Char)
    (ct : List Char) (hA : A = ch :: ct) : (joinNL (A :: M)).head? = some ch := by
  cases M with
  | nil => rw [hA]; rfl
  | cons m1 m2 =>
    rw [joinNL_cons _ _ (by simp), hA]
    rfl

theorem map_pyRstrip_map (t2 : List (List Char)) :
    (t2.map pyRstrip).map pyRstrip = t2.map pyRstrip := by
  induction t2 with
  | nil => rfl
  | cons a u ih => simp only [List.map_cons, pyRstrip_idem, ih]

theorem dropTrail_eq_self (ls : List (List Char)) (x : List Char)
    (h : ls.getLast? = some x) (hb : isBlankLine x = false) :
    dropTrailBlank ls = ls := by
  unfold dropTrailBlank
  have hr : ls.reverse.head? = some x := by rw [List.head?_reverse]; exact h
  cases hrev : ls.reverse with
  | nil => rw [hrev] at hr; simp at hr
  | cons a u =>
    rw [hrev] at hr
    simp at hr
    subst hr
    have hdw : List.dropWhile isBlankLine (a :: u) = a :: u := by
      rw [List.dropWhile_cons, if_neg (by simp [hb])]
    rw [hdw, ← hrev, List.reverse_reverse]

theorem cleanOutput_second_pass (s c : List Char)
    (h1 : ansiSub (cleanOutput s c) = cleanOutput s c)
    (h2 : listContains c ((splitNL (cleanOutput s c)).headI) = false) :
    cleanOutput (cleanOutput s c) c = cleanOutput s c := by
  have hnoCR : '\r' ∉ cleanOutput s c := noCR_cleanOutput s c
  have hpre : mapCR (replaceCRLF (ansiSub (cleanOutput s c))) = cleanOutput s c := by
    rw [h1, replaceCRLF_eq_self _ hnoCR, mapCR_eq_self _ hnoCR]
  rcases cleanLines_shape s c with hnil | ⟨l0, t2, hcl, hb0, lN, hlN, hblN⟩
  · have ht : cleanOutput s c = [] := cleanOutput_of_cleanLines_nil s c hnil
    rw [ht] at h2 hpre ⊢
    have h2x : listContains c [] = false := by
      simpa [splitNL, List.headI] using h2
    show pyStrip (joinNL ((cleanLines [] c).map pyRstrip)) = []
    unfold cleanLines
    rw [show ansiSub ([] : List Char) = [] from rfl] at hpre ⊢
    rw [hpre]
    simp [splitNL, echoDrop, h2x, isBlankLine, dropTrailBlank, joinNL, pyStrip,
      pyLstrip, pyRstrip]
  · have hlast : ∃ x, (l0 :: t2).getLast? = some x ∧ isBlankLine x = false :=
      ⟨lN, by rw [← hcl]; exact hlN, hblN⟩
    obtain ⟨hJ, hS⟩ := splitNL_cleanOutput_eq s c l0 t2 hcl hb0 hlast
    have hED : echoDrop c (pyLstrip (pyRstrip l0) :: t2.map pyRstrip) =
        pyLstrip (pyRstrip l0) :: t2.map pyRstrip := by
      have hcc : listContains c (pyLstrip (pyRstrip l0)) = false := by
        rw [hS] at h2
        simpa [List.headI] using h2
      simp [echoDrop, hcc]
    have hAnb : isBlankLine (pyLstrip (pyRstrip l0)) = false :=
      notBlank_pyLstrip _ (notBlank_pyRstrip _ hb0)
    have hDW : (pyLstrip (pyRstrip l0) :: t2.map pyRstrip).dropWhile isBlankLine =
        pyLstrip (pyRstrip l0) :: t2.map pyRstrip := by
      rw [List.dropWhile_cons, if_neg (by simp [hAnb])]
    obtain ⟨x, hxL, hxb⟩ := getLast?_L2 l0 t2 hb0 hlast
    have hDT : dropTrailBlank (pyLstrip (pyRstrip l0) :: t2.map pyRstrip) =
        pyLstrip (pyRstrip l0) :: t2.map pyRstrip :=
      dropTrail_eq_self _ x hxL hxb
    have hMap : (pyLstrip (pyRstrip l0) :: t2.map pyRstrip).map pyRstrip =
        pyLstrip (pyRstrip l0) :: t2.map pyRstrip := by
      rw [List.map_cons, rstrip_lstrip_rstrip, map_pyRstrip_map]
    obtain ⟨ch, ct, hct, hch⟩ := pyLstrip_shape (pyRstrip l0) (notBlank_pyRstrip _ hb0)
    have hHead : (cleanOutput s c).head? = some ch := by
      rw [hJ]
      exact head?_joinNL_cons _ _ ch ct hct
    have hLst : pyLstrip (cleanOutput s c) = cleanOutput s c :=
      pyLstrip_eq_self _ ch hHead hch
    have hRst : pyRstrip (cleanOutput s c) = cleanOutput s c := by
      show pyRstrip (pyStrip (joinNL ((cleanLines s c).map pyRstrip))) = _
      unfold pyStrip
      rw [pyRstrip_idem]
      rfl
    calc cleanOutput (cleanOutput s c) c
        = pyStrip (joinNL ((cleanLines (cleanOutput s c) c).map pyRstrip)) := rfl
      _ = pyStrip (joinNL (pyLstrip (pyRstrip l0) :: t2.map pyRstrip)) := by
            unfold cleanLines
            rw [hpre, hS, hED, hDW, hDT, hMap]
      _ = pyStrip (cleanOutput s c) := by rw [← hJ]
      _ = cleanOutput s c := by unfold pyStrip; rw [hLst, hRst]

theorem lines_rstripped (s c : List Char) :
    ∀ l ∈ splitNL (cleanOutput s c), pyRstrip l = l := by
  rcases cleanLines_shape s c with hnil | ⟨l0, t2, hcl, hb0, lN, hlN, hblN⟩
  · rw [cleanOutput_of_cleanLines_nil s c hnil]
    intro l hl
    simp [splitNL] at hl
    subst hl
    rfl
  · obtain ⟨hJ, hS⟩ := splitNL_cleanOutput_eq s c l0 t2 hcl hb0
      ⟨lN, by rw [← hcl]; exact hlN, hblN⟩
    rw [hS]
    intro l hl
    rcases List.mem_cons.mp hl with rfl | hl2
    · exact rstrip_lstrip_rstrip l0
    · rw [List.mem_map] at hl2
      obtain ⟨pl, _, rfl⟩ := hl2
      exact pyRstrip_idem pl

theorem ends_notBlank (s c : List Char) :
    cleanOutput s c = [] ∨
    ((∃ l0, (splitNL (cleanOutput s c)).head? = some l0 ∧ isBlankLine l0 = false) ∧
     (∃ lN, (splitNL (cleanOutput s c)).getLast? = some lN ∧
        isBlankLine lN = false)) := by
  rcases cleanLines_shape s c with hnil | ⟨l0, t2, hcl, hb0, lN, hlN, hblN⟩
  · exact Or.inl (cleanOutput_of_cleanLines_nil s c hnil)
  · right
    have hlast : ∃ x, (l0 :: t2).getLast? = some x ∧ isBlankLine x = false :=
      ⟨lN, by rw [← hcl]; exact hlN, hblN⟩
    obtain ⟨hJ, hS⟩ := splitNL_cleanOutput_eq s c l0 t2 hcl hb0 hlast
    constructor
    · exact ⟨pyLstrip (pyRstrip l0), by rw [hS]; rfl,
        notBlank_pyLstrip _ (notBlank_pyRstrip _ hb0)⟩
    · obtain ⟨x, hxL, hxb⟩ := getLast?_L2 l0 t2 hb0 hlast
      exact ⟨x, by rw [hS]; exact hxL, hxb⟩

theorem cleanOutput_nil_input (c : List Char) : cleanOutput [] c = [] := by
  cases c with
  | nil => rfl
  | cons a t => rfl

/-! ### Pointwise evaluation lemmas for the session phases -/

theorem phaseAuth_keyAuth (b a : List Char) (r : List Ev) :
    phaseAuth (Ev.m 1 b a :: r) = (r, [], .ok ()) := rfl

theorem phaseAuth_password (b a b1 a1 : List Char) (r : List Ev) :
    phaseAuth (Ev.m 0 b a :: Ev.m 0 b1 a1 :: r) =
      (r, [.sendConsolePass], .ok ()) := rfl

theorem phaseAttach_ok (i j : Nat) (b a b1 a1 : List Char) (r : List Ev) :
    phaseAttach (Ev.m i b a :: Ev.m j b1 a1 :: r) =
      (r, [.sendConnect, .sendCR, .sendCR], .ok ()) := rfl

theorem phaseDetect_prompt (du dp : Option (List Char)) (b a : List Char)
    (r : List Ev) : phaseDetect du dp (Ev.m 3 b a :: r) = (r, [], .ok a) := rfl

theorem phaseDetect_userNone (dp : Option (List Char)) (b a : List Char)
    (r : List Ev) :
    phaseDetect none dp (Ev.m 0 b a :: r) =
      (r, [], .error (.runtime .noDeviceCreds)) := rfl

theorem phaseDetect_loginNone (dp : Option (List Char)) (b a : List Char)
    (r : List Ev) :
    phaseDetect none dp (Ev.m 1 b a :: r) =
      (r, [], .error (.runtime .noDeviceCreds)) := rfl

theorem endsInHash_pyStrip_gt (hn : List Char) :
    endsInHash (pyStrip (hn ++ ['>'])) = false := by
  have h1 : (pyLstrip (hn ++ ['>'])).getLast? = some '>' :=
    getLast?_dropWhile_concat pyIsSpace hn '>' (by decide)
  have h2 : pyRstrip (pyLstrip (hn ++ ['>'])) = pyLstrip (hn ++ ['>']) :=
    pyRstrip_eq_self _ '>' h1 (by decide)
  unfold pyStrip
  rw [h2]
  unfold endsInHash
  rw [h1]
  rfl

theorem phaseEnable_gt_prompt (e0 : Char) (erest hn b a : List Char) (r : List Ev) :
    phaseEnable (some (e0 :: erest)) (hn ++ ['>']) (Ev.m 1 b a :: r) =
      (r, [.sendEnable], .ok ()) := by
  unfold phaseEnable
  rw [if_neg (show ¬(hn ++ ['>'] : List Char) = [] by simp)]
  simp only [endsInHash_pyStrip_gt hn]
  rfl

theorem phaseEnable_none (after : List Char) (script : List Ev) :
    phaseEnable none after script = (script, [], .ok ()) := rfl

theorem phaseReady_ok (i : Nat) (b a : List Char) (r : List Ev) :
    phaseReady (Ev.m i b a :: r) = (r, [.sendCR], .ok ()) := rfl

theorem phaseDetach_ok (i : Nat) (b a : List Char) (r : List Ev) :
    phaseDetach (Ev.m i b a :: r) = (r, [.sendEsc, .sendExit], .ok ()) := rfl

theorem commandLoop_prompt0 (n : Nat) (buf : List (List Char)) (b a : List Char)
    (r : List Ev) :
    commandLoop (n + 1) buf (Ev.m 0 b a :: r) =
      (r, [], .ok (if b = [] then buf else buf ++ [b])) := rfl

theorem commandLoop_pager2 (n : Nat) (buf : List (List Char)) (b a : List Char)
    (r : List Ev) :
    commandLoop (n + 1) buf (Ev.m 2 b a :: r) =
      (match commandLoop n (if b = [] then buf else buf ++ [b]) r with
       | (r2, acts, res) => (r2, .sendSpace :: acts, res)) := rfl

/-! ### Claims -/

/-- C9: for each of the four supported prompt modes (UserExec, PrivilegedExec,
ConfigGlobal, ConfigSub) the combined prompt regular expression of
`execute_via_console` matches the corresponding example prompt exactly once
(non-overlapping scan count is 1), and the mode inferred from the matched
prompt text is the correct one: `>` gives UserExec, bare `#` gives
PrivilegedExec, `(config)#` gives ConfigGlobal, `(config-if)#` gives
ConfigSub.  The Mode classifier is modelled from the spec (the source itself
keeps only `in_enable_mode = prompt.endswith('#')`, also checked here). -/
theorem claim_C9_prompt_regex_modes :
    (countCombined "R1>".toList = 1 ∧
      classifyMode "R1>".toList = Mode.userExec ∧
      endsInHash "R1>".toList = false) ∧
    (countCombined "R1#".toList = 1 ∧
      classifyMode "R1#".toList = Mode.privilegedExec ∧
      endsInHash "R1#".toList = true) ∧
    (countCombined "R1(config)#".toList = 1 ∧
      classifyMode "R1(config)#".toList = Mode.configGlobal ∧
      endsInHash "R1(config)#".toList = true) ∧
    (countCombined "R1(config-if)#".toList = 1 ∧
      classifyMode "R1(config-if)#".toList = Mode.configSub ∧
      endsInHash "R1(config-if)#".toList = true) := by
  decide

/-- The C1 failing input: console key-auth, attach, `R1#` prompt, clean
boundary, then during command draining one page (`page1`) is consumed at a
`--More--` match, the next expect times out with `p2` unmatched, and the
recovery probe times out as well (the unmatched data still reads `p2`). -/
def c1Script : List Ev :=
  [.m 1 [] [], .m 0 [] [], .m 0 [] [], .m 3 [] "R1#".toList, .m 0 [] [],
   .m 2 "page1".toList "--More--".toList, .t "p2".toList, .t "p2".toList]

/-- C1: code bug.  The module docstring promises timeout handling "that
doesn't lose partial output" and the loop appends every chunk to
`output_buffer`, but when the recovery probe fails the re-raised
`pexpect.TIMEOUT` is converted by the outer handler into a `TimeoutError`
built only from `child.buffer` / `child.before`: the chunk `page1`, consumed
by the earlier `--More--` match, is absent from the propagated error, so the
attached partial output is not the concatenation of the accumulated chunks.
This theorem evaluates the model at the failing input: the error carries only
`p2`, the log shows the pager page was consumed (a continuation space was
sent), and `page1` does not occur in the attached payload. -/
theorem claim_C1_timeout_drops_chunks :
    (executeViaConsole none none none "show version".toList c1Script).2 =
      .error (.timeout "p2".toList "p2".toList) ∧
    (executeViaConsole none none none "show version".toList c1Script).1 =
      [.sendConnect, .sendCR, .sendCR, .sendCR, .sendCmd "show version".toList,
       .sendSpace, .sendCR] ∧
    listContains "page1".toList "p2".toList = false := by
  decide

/-- C10 counterexample: the single-pass ANSI substitution can create a new
escape sequence by juxtaposition: `ESC ESC [0m A` becomes `ESC A`, which the
ANSI pattern matches, so the normalizer's output is not free of ANSI escape
sequences. -/
theorem claim_C10_counterexample :
    cleanOutput "\x1b\x1b[0mA".toList "zzz".toList = "\x1bA".toList ∧
    hasAnsi (cleanOutput "\x1b\x1b[0mA".toList "zzz".toList) = true := by
  decide

/-- C10 amended: for every input string and command, the output of the
normalizer contains no carriage-return characters, none of its lines ends in
whitespace, it has no leading or trailing blank lines (unless it is empty),
and on the empty input it returns the empty string.  (The original claim's
"no ANSI escape sequences" clause is dropped: the single substitution pass
can leave an escape sequence formed by juxtaposition, see the
counterexample.) -/
theorem claim_C10_amended (s c : List Char) :
    '\r' ∉ cleanOutput s c ∧
    (∀ l ∈ splitNL (cleanOutput s c), pyRstrip l = l) ∧
    (cleanOutput s c = [] ∨
      ((∃ l0, (splitNL (cleanOutput s c)).head? = some l0 ∧
          isBlankLine l0 = false) ∧
       (∃ lN, (splitNL (cleanOutput s c)).getLast? = some lN ∧
          isBlankLine lN = false))) ∧
    cleanOutput [] c = [] :=
  ⟨noCR_cleanOutput s c, lines_rstripped s c, ends_notBlank s c,
   cleanOutput_nil_input c⟩

/-- C4 counterexample: the normalizer is not idempotent.  On the input
starting with a blank line followed by a line containing the command, the
first pass drops the blank line only; the second pass then sees the command
in the first line, treats it as an echo, and deletes it. -/
theorem claim_C4_counterexample :
    cleanOutput (cleanOutput "\nshow version stuff".toList "show version".toList)
        "show version".toList ≠
      cleanOutput "\nshow version stuff".toList "show version".toList := by
  decide

/-- C4 amended: normalizing twice gives the same result as normalizing once
whenever the once-normalized text is unchanged by the ANSI substitution and
its first line does not contain the command as a substring (the two
conditions the counterexamples violate). -/
theorem claim_C4_amended (s c : List Char)
    (h1 : ansiSub (cleanOutput s c) = cleanOutput s c)
    (h2 : listContains c ((splitNL (cleanOutput s c)).headI) = false) :
    cleanOutput (cleanOutput s c) c = cleanOutput s c :=
  cleanOutput_second_pass s c h1 h2

/-- Witness for the amended C4 at a concrete input. -/
theorem claim_C4_amended_witness :
    ansiSub (cleanOutput "hello\nworld".toList "zzz".toList) =
      cleanOutput "hello\nworld".toList "zzz".toList ∧
    listContains "zzz".toList
      ((splitNL (cleanOutput "hello\nworld".toList "zzz".toList)).headI) = false ∧
    cleanOutput (cleanOutput "hello\nworld".toList "zzz".toList) "zzz".toList =
      cleanOutput "hello\nworld".toList "zzz".toList :=
  ⟨by decide, by decide, claim_C4_amended _ _ (by decide) (by decide)⟩

theorem commandLoop_pager_run (bs : List (List Char)) :
    ∀ (fuel : Nat) (buf : List (List Char)) (pa fb fa : List Char),
    bs.length < fuel →
    ∃ chunks,
      commandLoop fuel buf (bs.map (fun b => Ev.m 2 b pa) ++ [Ev.m 0 fb fa]) =
        ([], List.replicate bs.length Act.sendSpace, Except.ok chunks) ∧
      chunks.flatten = buf.flatten ++ (bs ++ [fb]).flatten := by
  induction bs with
  | nil =>
    intro fuel buf pa fb fa hf
    cases fuel with
    | zero => cases hf
    | succ n =>
      refine ⟨if fb = [] then buf else buf ++ [fb], ?_, ?_⟩
      · simpa using commandLoop_prompt0 n buf fb fa []
      · by_cases hfb : fb = []
        · simp [hfb]
        · simp [hfb]
  | cons b bs ih =>
    intro fuel buf pa fb fa hf
    cases fuel with
    | zero => cases hf
    | succ n =>
      have hlt : bs.length < n := by
        simpa using Nat.lt_of_succ_lt_succ (by simpa using hf)
      obtain ⟨chunks, hcl, hfl⟩ := ih n (if b = [] then buf else buf ++ [b]) pa fb fa hlt
      refine ⟨chunks, ?_, ?_⟩
      · rw [List.map_cons, List.cons_append, commandLoop_pager2, hcl]
        simp [List.replicate_succ]
      · rw [hfl]
        by_cases hb : b = []
        · simp [hb]
        · simp [hb]

/-- C3 counterexample: with exactly N = 50 pager markers before the final
prompt, the loop exhausts `max_iterations = 50` on the pager pages alone: it
does send the 50 continuation spaces, but it never consumes the final prompt
event, and the returned output contains only the 50 pager segments — the
51st segment (`Z`, the text before the final prompt) is missing from the
concatenation, contradicting the claim for that N. -/
theorem claim_C3_counterexample :
    (commandLoop 50 []
        (List.replicate 50 (Ev.m 2 "a".toList "M".toList) ++
          [Ev.m 0 "Z".toList "R1#".toList])).2 =
      (List.replicate 50 Act.sendSpace, Except.ok (List.replicate 50 "a".toList)) ∧
    (List.replicate 50 ("a".toList : List Char)).flatten ≠
      (List.replicate 50 ("a".toList : List Char) ++ ["Z".toList]).flatten := by
  decide

/-- C3 amended: for every N ≤ 49 (so that the N pager matches and the final
prompt match fit into the 50-iteration bound), a transport that emits exactly
N pager markers and then a final prompt makes the loop send exactly N
continuation spaces (and nothing else), and the returned chunks concatenate
to all N + 1 output segments in arrival order. -/
theorem claim_C3_amended (bs : List (List Char)) (pa fb fa : List Char)
    (h : bs.length ≤ 49) :
    ∃ chunks,
      commandLoop 50 [] (bs.map (fun b => Ev.m 2 b pa) ++ [Ev.m 0 fb fa]) =
        ([], List.replicate bs.length Act.sendSpace, Except.ok chunks) ∧
      chunks.flatten = (bs ++ [fb]).flatten := by
  obtain ⟨chunks, h1, h2⟩ :=
    commandLoop_pager_run bs 50 [] pa fb fa (Nat.lt_succ_of_le h)
  exact ⟨chunks, h1, by simpa using h2⟩

/-- Witness for the amended C3 at N = 2. -/
theorem claim_C3_amended_witness :
    (["pg1".toList, "pg2".toList] : List (List Char)).length ≤ 49 ∧
    ∃ chunks,
      commandLoop 50 []
          ((["pg1".toList, "pg2".toList] : List (List Char)).map
              (fun b => Ev.m 2 b "M".toList) ++
            [Ev.m 0 "fin".toList "R1#".toList]) =
        ([], List.replicate
            (["pg1".toList, "pg2".toList] : List (List Char)).length
            Act.sendSpace, Except.ok chunks) ∧
      chunks.flatten =
        ((["pg1".toList, "pg2".toList] : List (List Char)) ++
          ["fin".toList]).flatten :=
  ⟨by decide,
   claim_C3_amended ["pg1".toList, "pg2".toList] "M".toList "fin".toList
     "R1#".toList (by decide)⟩

theorem commandLoop_allPager_run (fuel : Nat) :
    ∀ (bs : List (List Char)) (buf : List (List Char)) (pa : List Char),
    fuel ≤ bs.length →
    ∃ chunks rest,
      commandLoop fuel buf (bs.map (fun b => Ev.m 2 b pa)) =
        (rest, List.replicate fuel Act.sendSpace, Except.ok chunks) ∧
      chunks.flatten = buf.flatten ++ (bs.take fuel).flatten := by
  induction fuel with
  | zero =>
    intro bs buf pa _
    exact ⟨buf, bs.map (fun b => Ev.m 2 b pa), rfl, by simp⟩
  | succ n ih =>
    intro bs buf pa h
    cases bs with
    | nil => cases Nat.not_succ_le_zero n (by simpa using h)
    | cons b bs2 =>
      have h2 : n ≤ bs2.length := Nat.le_of_succ_le_succ (by simpa using h)
      obtain ⟨chunks, rest, hcl, hfl⟩ :=
        ih bs2 (if b = [] then buf else buf ++ [b]) pa h2
      refine ⟨chunks, rest, ?_, ?_⟩
      · rw [List.map_cons, commandLoop_pager2, hcl]
        simp [List.replicate_succ]
      · rw [hfl]
        by_cases hb : b = []
        · simp [hb]
        · simp [hb]

/-- C7 counterexample: exhausting the iteration bound returns a value that is
identical to the value of an ordinary successful run with the same chunks:
the returned output carries no truncation flag of any kind, contradicting
"marked with a truncation flag".  (50 pager pages with no final prompt
versus 49 pager pages followed by a prompt whose preceding text is the same
50th page.) -/
theorem claim_C7_counterexample :
    (commandLoop 50 [] (List.replicate 50 (Ev.m 2 "a".toList "M".toList))).2.2 =
      Except.ok (List.replicate 50 "a".toList) ∧
    (commandLoop 50 [] (List.replicate 50 (Ev.m 2 "a".toList "M".toList))).2.2 =
      (commandLoop 50 []
        (List.replicate 49 (Ev.m 2 "a".toList "M".toList) ++
          [Ev.m 0 "a".toList "R1#".toList])).2.2 := by
  decide

/-- C7 amended: if the transport keeps emitting pager markers so that the
loop exhausts its 50-iteration bound without matching a final prompt, the
operation does not fail: it returns (`Except.ok`) the output accumulated over
the 50 iterations; the truncation is only logged, and the returned value
carries no flag distinguishing it from an ordinary completion. -/
theorem claim_C7_amended (bs : List (List Char)) (pa : List Char)
    (h : 50 ≤ bs.length) :
    ∃ chunks rest,
      commandLoop 50 [] (bs.map (fun b => Ev.m 2 b pa)) =
        (rest, List.replicate 50 Act.sendSpace, Except.ok chunks) ∧
      chunks.flatten = (bs.take 50).flatten := by
  obtain ⟨chunks, rest, h1, h2⟩ := commandLoop_allPager_run 50 bs [] pa h
  exact ⟨chunks, rest, h1, by simpa using h2⟩

/-- Witness for the amended C7 with 50 one-character pages. -/
theorem claim_C7_amended_witness :
    50 ≤ (List.replicate 50 ("a".toList : List Char)).length ∧
    ∃ chunks rest,
      commandLoop 50 []
          ((List.replicate 50 ("a".toList : List Char)).map
            (fun b => Ev.m 2 b "M".toList)) =
        (rest, List.replicate 50 Act.sendSpace, Except.ok chunks) ∧
      chunks.flatten =
        ((List.replicate 50 ("a".toList : List Char)).take 50).flatten :=
  ⟨by decide,
   claim_C7_amended (List.replicate 50 "a".toList) "M".toList (by decide)⟩

theorem commandLoop50_prompt0 (buf : List (List Char)) (b a : List Char)
    (r : List Ev) :
    commandLoop 50 buf (Ev.m 0 b a :: r) =
      (r, [], .ok (if b = [] then buf else buf ++ [b])) :=
  commandLoop_prompt0 49 buf b a r

/-- C2 counterexample: with a username prompt observed and no device
username supplied, the session fails before any command is sent, but the
error kind surfaced to the caller is the catch-all `RuntimeError` (the
`ValueError` of line 178 is wrapped by `except Exception`), not a distinct
missing-credentials kind. -/
theorem claim_C2_counterexample :
    (executeViaConsole none none none "show ip route".toList
        [.m 1 [] [], .m 0 [] [], .m 0 [] [],
         .m 0 "b".toList "Username:".toList]).2 =
      .error (.runtime .noDeviceCreds) ∧
    Err.runtime RTag.noDeviceCreds ≠ Err.missingCredentials := by
  decide

/-- The C2 script family: console-server auth with or without a password
prompt, the two attach expects, then a username (`bUser = true`) or login
prompt, then anything. -/
def c2Script (bAuth bUser : Bool) (b0 a0 b1 a1 b2 a2 b3 a3 bu au : List Char)
    (rest : List Ev) : List Ev :=
  (if bAuth then [Ev.m 0 b0 a0, Ev.m 0 b1 a1] else [Ev.m 1 b0 a0]) ++
    [Ev.m 0 b2 a2, Ev.m 0 b3 a3, Ev.m (if bUser then 0 else 1) bu au] ++ rest

/-- C2 amended: for every transcript in which a username or login prompt is
observed and the caller supplied no device username, command execution fails
before any command line is sent — no `sendline(command)` ever happens — but
the failure is surfaced as the generic `RuntimeError` kind (wrapping the
internal `ValueError`), not as a distinct MissingCredentials kind. -/
theorem claim_C2_amended (bAuth bUser : Bool) (dp ep : Option (List Char))
    (command : List Char) (b0 a0 b1 a1 b2 a2 b3 a3 bu au : List Char)
    (rest : List Ev) :
    (executeViaConsole none dp ep command
        (c2Script bAuth bUser b0 a0 b1 a1 b2 a2 b3 a3 bu au rest)).2 =
      .error (.runtime .noDeviceCreds) ∧
    ∀ cc, Act.sendCmd cc ∉
      (executeViaConsole none dp ep command
        (c2Script bAuth bUser b0 a0 b1 a1 b2 a2 b3 a3 bu au rest)).1 := by
  cases bAuth <;> cases bUser <;>
    simp [c2Script, executeViaConsole, phaseAuth_keyAuth, phaseAuth_password,
      phaseAttach_ok, phaseDetect_userNone, phaseDetect_loginNone]

/-- C6 counterexample: device prompt `R1>`, enable secret supplied, `enable`
sent, password prompt answered, but the expected `#` prompt never arrives:
the `child.expect(r"#")` on line 211 times out and the whole session fails
with `TimeoutError` — privileged-exec not being reached is fatal here, and
no warning is recorded. -/
theorem claim_C6_counterexample :
    (executeViaConsole none none (some "en".toList) "show clock".toList
        [.m 1 [] [], .m 0 [] [], .m 0 [] [], .m 3 [] "R1>".toList,
         .m 0 [] [], .t "x".toList]).2 =
      .error (.timeout "x".toList "x".toList) := by
  decide

/-- The C6 script family: key-auth, attach, a user-exec prompt (anything
ending in `>`), then the `enable` expect matches a prompt (index 1) rather
than a password prompt, then a clean boundary, one command completion and a
detach. -/
def c6Script (b0 a0 b1 a1 b2 a2 b3 hn b4 a4 b5 a5 b6 a6 b7 a7 : List Char) :
    List Ev :=
  [.m 1 b0 a0, .m 0 b1 a1, .m 0 b2 a2, .m 3 b3 (hn ++ ['>']),
   .m 1 b4 a4, .m 0 b5 a5, .m 0 b6 a6, .m 0 b7 a7]

/-- C6 amended: when an enable secret is supplied and the `enable` exchange
returns a prompt without asking for a password (privileged mode not
reached), the session does not fail — `enable` was sent, execution continues
and the command is still dispatched in the current mode — but no warning is
recorded anywhere in the result available to the caller; if instead the
enable-password path times out before a `#` prompt, the session fails with
Timeout (see the counterexample). -/
theorem claim_C6_amended (du dp : Option (List Char)) (e0 : Char)
    (erest command b0 a0 b1 a1 b2 a2 b3 hn b4 a4 b5 a5 b6 a6 b7 a7 : List Char) :
    (∃ out, (executeViaConsole du dp (some (e0 :: erest)) command
        (c6Script b0 a0 b1 a1 b2 a2 b3 hn b4 a4 b5 a5 b6 a6 b7 a7)).2 =
      .ok out) ∧
    Act.sendEnable ∈ (executeViaConsole du dp (some (e0 :: erest)) command
        (c6Script b0 a0 b1 a1 b2 a2 b3 hn b4 a4 b5 a5 b6 a6 b7 a7)).1 ∧
    Act.sendCmd command ∈ (executeViaConsole du dp (some (e0 :: erest)) command
        (c6Script b0 a0 b1 a1 b2 a2 b3 hn b4 a4 b5 a5 b6 a6 b7 a7)).1 := by
  simp only [c6Script, executeViaConsole, phaseAuth_keyAuth, phaseAttach_ok,
    phaseDetect_prompt, phaseEnable_gt_prompt, phaseReady_ok,
    commandLoop50_prompt0, phaseDetach_ok]
  refine ⟨⟨_, rfl⟩, ?_, ?_⟩ <;> simp

theorem phaseCfgDetect_prompt (du dp : Option (List Char)) (b a : List Char)
    (r : List Ev) : phaseCfgDetect du dp (Ev.m 3 b a :: r) = (r, [], .ok a) := rfl

theorem cfgCommands_step (cmd : List Char) (rest : List (List Char))
    (acc : List (List Char)) (i : Nat) (b a : List Char) (r : List Ev) :
    cfgCommands (cmd :: rest) acc (Ev.m i b a :: r) =
      (match cfgCommands rest
          (acc ++ [if b = [] then cmd ++ ": OK".toList
                   else cmd ++ ": ".toList ++ pyStrip b]) r with
       | (r2, acts, res) => (r2, Act.sendCmd cmd :: acts, res)) := rfl

theorem cfgCommands_timeout (cmd : List Char) (rest : List (List Char))
    (acc : List (List Char)) (bk : List Char) (r : List Ev) :
    cfgCommands (cmd :: rest) acc (Ev.t bk :: r) =
      (r, [Act.sendCmd cmd], .error (.timeout bk bk)) := rfl

theorem cfgCommands_fail (okG : List (List Char × List Char)) :
    ∀ (acc : List (List Char)) (ck : List Char) (restCmds : List (List Char))
      (bk : List Char) (rest : List Ev),
    cfgCommands (okG.map Prod.fst ++ ck :: restCmds) acc
        (okG.map (fun p => Ev.m 0 p.2 []) ++ Ev.t bk :: rest) =
      (rest, okG.map (fun p => Act.sendCmd p.1) ++ [Act.sendCmd ck],
        .error (.timeout bk bk)) := by
  induction okG with
  | nil =>
    intro acc ck restCmds bk rest
    simpa using cfgCommands_timeout ck restCmds acc bk rest
  | cons p okG ih =>
    intro acc ck restCmds bk rest
    simp only [List.map_cons, List.cons_append]
    rw [cfgCommands_step, ih]

/-- The C5 prelude: console key-auth, the two attach expects, an `R1#`
prompt (already privileged, so no `enable`), and the `configure terminal`
prompt match. -/
def c5Prelude : List Ev :=
  [.m 1 [] [], .m 0 [] [], .m 0 [] [], .m 3 [] "R1#".toList, .m 0 [] []]

/-- C5 counterexample: a two-command batch where the first command succeeds
with output `OUT0` and the second times out.  The surfaced failure is a
`TimeoutError` carrying only the last unmatched buffer `B1`: it identifies no
command index, and the output `OUT0` collected for the command before the
failure point is not part of the result (`all_output` is discarded), so the
failure neither "reports which command index failed" nor "returns the output
collected for all commands before" it. -/
theorem claim_C5_counterexample :
    (executeConfigCommands none none none ["c0".toList, "c1".toList]
        (c5Prelude ++ [.m 0 "OUT0".toList [], .t "B1".toList])).2 =
      .error (.timeout "B1".toList "B1".toList) ∧
    listContains "OUT0".toList "B1".toList = false ∧
    listContains "0".toList "B1".toList = false := by
  decide

/-- C5 amended: for every batch and every failure position, a timeout while
executing the k-th command aborts the remaining commands — the commands sent
are exactly `configure terminal`, the k prior commands and the failing one,
in order, and none after — and the surfaced failure is a `TimeoutError`
carrying only the last unmatched buffer; neither the failing command index
nor the outputs collected for the prior commands are returned. -/
theorem claim_C5_amended (okG : List (List Char × List Char)) (ck : List Char)
    (restCmds : List (List Char)) (bk : List Char) (rest : List Ev) :
    executeConfigCommands none none none (okG.map Prod.fst ++ ck :: restCmds)
        (c5Prelude ++ okG.map (fun p => Ev.m 0 p.2 []) ++ Ev.t bk :: rest) =
      ([.sendConnect, .sendCR, .sendCR] ++
        Act.sendCmd "configure terminal".toList ::
          (okG.map (fun p => Act.sendCmd p.1) ++ [Act.sendCmd ck]),
       .error (.timeout bk bk)) := by
  show executeConfigCommands none none none (okG.map Prod.fst ++ ck :: restCmds)
      (Ev.m 1 [] [] :: Ev.m 0 [] [] :: Ev.m 0 [] [] ::
        Ev.m 3 [] "R1#".toList :: Ev.m 0 [] [] ::
        (okG.map (fun p => Ev.m 0 p.2 []) ++ Ev.t bk :: rest)) = _
  simp only [executeConfigCommands, phaseAuth_keyAuth, phaseAttach_ok,
    phaseCfgDetect_prompt]
  rw [show phaseCfgEnable none "R1#".toList
      (Ev.m 0 [] [] :: (okG.map (fun p => Ev.m 0 p.2 []) ++ Ev.t bk :: rest)) =
    (Ev.m 0 [] [] :: (okG.map (fun p => Ev.m 0 p.2 []) ++ Ev.t bk :: rest),
      [], .ok ()) from rfl]
  simp only [expectHard]
  rw [cfgCommands_fail]
  simp

/-! ### Action classification for the ordering claim -/

def isConsoleAuthAct : Act → Bool
  | .sendConsolePass => true
  | _ => false

def isConnectAct : Act → Bool
  | .sendConnect => true
  | _ => false

def isCRAct : Act → Bool
  | .sendCR => true
  | _ => false

def isDevAuthAct : Act → Bool
  | .sendUser => true
  | .sendDevPass => true
  | _ => false

def isModeAct : Act → Bool
  | .sendEnable => true
  | .sendEnablePass => true
  | _ => false

def isExecAct : Act → Bool
  | .sendCmd _ => true
  | .sendSpace => true
  | .sendYes => true
  | .sendCR => true
  | _ => false

def isDetachAct : Act → Bool
  | .sendEsc => true
  | .sendExit => true
  | _ => false

theorem phaseAuth_acts (s : List Ev) :
    ((phaseAuth s).2.1).all isConsoleAuthAct = true := by
  rcases s with _ | ⟨e, r⟩
  · rfl
  · rcases e with ⟨i, b, a⟩ | b | _
    · cases i with
      | zero =>
        rcases r with _ | ⟨e2, r2⟩
        · rfl
        · rcases e2 with ⟨j, b2, a2⟩ | b2 | _ <;> rfl
      | succ i2 => cases i2 with
        | zero => rfl
        | succ i3 => rfl
    · rfl
    · rfl

theorem phaseAttach_acts (s : List Ev) :
    ∃ cs, (phaseAttach s).2.1 = Act.sendConnect :: cs ∧
      cs.all isCRAct = true := by
  rcases s with _ | ⟨e, r⟩
  · exact ⟨[], rfl, rfl⟩
  · rcases e with ⟨i, b, a⟩ | b | _
    · rcases r with _ | ⟨e2, r2⟩
      · exact ⟨[], rfl, rfl⟩
      · rcases e2 with ⟨j, b2, a2⟩ | b2 | _
        · exact ⟨[.sendCR, .sendCR], rfl, rfl⟩
        · exact ⟨[], rfl, rfl⟩
        · exact ⟨[], rfl, rfl⟩
    · exact ⟨[], rfl, rfl⟩
    · exact ⟨[], rfl, rfl⟩

theorem retryLoop_acts (n : Nat) :
    ∀ (lastB : List Char) (s : List Ev),
    ((retryLoop n lastB s).2.1).all isCRAct = true := by
  induction n with
  | zero =>
    intro lastB s
    unfold retryLoop
    by_cases h : heuristicPromptLike lastB = true
    · rw [if_pos h]; rfl
    · rw [if_neg h]; rfl
  | succ n ih =>
    intro lastB s
    rcases s with _ | ⟨e, r⟩
    · show ((match retryLoop n [] [] with
          | (r2, acts, res) => (r2, Act.sendCR :: acts, res)).2.1).all isCRAct = true
      rcases h : retryLoop n [] [] with ⟨r2, acts, res⟩
      have h2 := ih [] []
      rw [h] at h2
      show (Act.sendCR :: acts).all isCRAct = true
      simp only [List.all_cons, h2]
      rfl
    · rcases e with ⟨i, b, a⟩ | b | _
      · cases i with
        | zero => rfl
        | succ i2 =>
          cases i2 with
          | zero => rfl
          | succ i3 =>
            show ((match retryLoop n b r with
                | (r2, acts, res) => (r2, Act.sendCR :: acts, res)).2.1).all
              isCRAct = true
            rcases h : retryLoop n b r with ⟨r2, acts, res⟩
            have h2 := ih b r
            rw [h] at h2
            show (Act.sendCR :: acts).all isCRAct = true
            simp only [List.all_cons, h2]
            rfl
      · show ((match retryLoop n b r with
            | (r2, acts, res) => (r2, Act.sendCR :: acts, res)).2.1).all
          isCRAct = true
        rcases h : retryLoop n b r with ⟨r2, acts, res⟩
        have h2 := ih b r
        rw [h] at h2
        show (Act.sendCR :: acts).all isCRAct = true
        simp only [List.all_cons, h2]
        rfl
      · rfl

theorem deviceLogin_acts (du dp : Option (List Char)) (r : List Ev) :
    ((deviceLogin du dp r).2.1).all isDevAuthAct = true := by
  unfold deviceLogin
  by_cases h : pyTruthy du = true
  · rw [if_pos h]
    rcases r with _ | ⟨e, r2⟩
    · rfl
    · rcases e with ⟨i, b, a⟩ | b | _
      · cases dp with
        | none => rfl
        | some p =>
          rcases r2 with _ | ⟨e2, r3⟩
          · rfl
          · rcases e2 with ⟨j, b2, a2⟩ | b2 | _ <;> rfl
      · rfl
      · rfl
  · rw [if_neg h]
    rfl

theorem phaseDetect_acts (du dp : Option (List Char)) (s : List Ev) :
    ∃ cs ds, (phaseDetect du dp s).2.1 = cs ++ ds ∧
      cs.all isCRAct = true ∧ ds.all isDevAuthAct = true := by
  rcases s with _ | ⟨e, r⟩
  · refine ⟨(retryLoop 3 [] []).2.1, [], ?_, retryLoop_acts 3 [] [], rfl⟩
    rw [show phaseDetect du dp [] = retryLoop 3 [] [] from rfl]
    simp
  · rcases e with ⟨i, b, a⟩ | b | _
    · match i with
      | 0 =>
        refine ⟨[], (deviceLogin du dp r).2.1, ?_, rfl, deviceLogin_acts du dp r⟩
        rw [show phaseDetect du dp (Ev.m 0 b a :: r) = deviceLogin du dp r from rfl]
        simp
      | 1 =>
        refine ⟨[], (deviceLogin du dp r).2.1, ?_, rfl, deviceLogin_acts du dp r⟩
        rw [show phaseDetect du dp (Ev.m 1 b a :: r) = deviceLogin du dp r from rfl]
        simp
      | 2 =>
        refine ⟨[], (phaseDetect du dp (Ev.m 2 b a :: r)).2.1, by simp, rfl, ?_⟩
        rw [show phaseDetect du dp (Ev.m 2 b a :: r) =
          (if pyTruthy dp = true then
            (match expectHard r with
             | (r2, .error e) => (r2, [Act.sendDevPass], .error e)
             | (r2, .ok (j, b2, a2)) => (r2, [Act.sendDevPass], .ok a2))
           else (r, [], .error (.runtime .noDevicePass))) from rfl]
        by_cases h : pyTruthy dp = true
        · rw [if_pos h]
          rcases r with _ | ⟨e2, r2⟩
          · rfl
          · rcases e2 with ⟨j, b2, a2⟩ | b2 | _ <;> rfl
        · rw [if_neg h]
          rfl
      | 3 => exact ⟨[], [], rfl, rfl, rfl⟩
      | 4 => exact ⟨[], [], rfl, rfl, rfl⟩
      | n + 5 =>
        refine ⟨(retryLoop 3 b r).2.1, [], ?_, retryLoop_acts 3 b r, rfl⟩
        rw [show phaseDetect du dp (Ev.m (n + 5) b a :: r) = retryLoop 3 b r from rfl]
        simp
    · refine ⟨(retryLoop 3 b r).2.1, [], ?_, retryLoop_acts 3 b r, rfl⟩
      rw [show phaseDetect du dp (Ev.t b :: r) = retryLoop 3 b r from rfl]
      simp
    · exact ⟨[], [], rfl, rfl, rfl⟩

theorem phaseEnable_acts (ep : Option (List Char)) (after : List Char)
    (s : List Ev) : ((phaseEnable ep after s).2.1).all isModeAct = true := by
  unfold phaseEnable
  by_cases h : (pyTruthy ep &&
      !endsInHash (if after = [] then "unknown".toList else pyStrip after)) = true
  · rw [if_pos h]
    rcases s with _ | ⟨e, r⟩
    · rfl
    · rcases e with ⟨i, b, a⟩ | b | _
      · cases i with
        | zero =>
          rcases r with _ | ⟨e2, r2⟩
          · rfl
          · rcases e2 with ⟨j, b2, a2⟩ | b2 | _ <;> rfl
        | succ i2 => rfl
      · rfl
      · rfl
  · rw [if_neg h]
    rfl

theorem phaseReady_acts (s : List Ev) :
    ((phaseReady s).2.1).all isCRAct = true := by
  rcases s with _ | ⟨e, r⟩
  · rfl
  · rcases e with ⟨i, b, a⟩ | b | _ <;> rfl

theorem commandLoop_m_eq (n : Nat) (buf : List (List Char)) (i : Nat)
    (b a : List Char) (r : List Ev) :
    commandLoop (n + 1) buf (Ev.m i b a :: r) =
      (if i ≤ 1 then (r, [], .ok (if b = [] then buf else buf ++ [b]))
       else if i ≤ 3 then
         match commandLoop n (if b = [] then buf else buf ++ [b]) r with
         | (r2, acts, res) => (r2, Act.sendSpace :: acts, res)
       else
         match commandLoop n (if b = [] then buf else buf ++ [b]) r with
         | (r2, acts, res) => (r2, Act.sendYes :: acts, res)) := rfl

theorem commandLoop_nil_eq (n : Nat) (buf : List (List Char)) :
    commandLoop (n + 1) buf [] =
      (if buf = [] then ([], [], .error (.timeout [] []))
       else ([], [Act.sendCR], .error (.timeout [] []))) := rfl

theorem commandLoop_t_eq (n : Nat) (buf : List (List Char)) (b : List Char)
    (r : List Ev) :
    commandLoop (n + 1) buf (Ev.t b :: r) =
      (if (if b = [] then buf else buf ++ [b]) = [] then
         (r, [], .error (.timeout b b))
       else match r with
         | Ev.m idx b2 a2 :: r2 =>
             (r2, [Act.sendCR],
              .ok (if b2 = [] then (if b = [] then buf else buf ++ [b])
                   else (if b = [] then buf else buf ++ [b]) ++ [b2]))
         | Ev.t b2 :: r2 => (r2, [Act.sendCR], .error (.timeout b2 b2))
         | Ev.eof :: r2 => (r2, [Act.sendCR], .error .connection)
         | [] => ([], [Act.sendCR], .error (.timeout b b))) := rfl

theorem commandLoop_acts (fuel : Nat) :
    ∀ (buf : List (List Char)) (s : List Ev),
    ((commandLoop fuel buf s).2.1).all isExecAct = true := by
  induction fuel with
  | zero => intro buf s; rfl
  | succ n ih =>
    intro buf s
    rcases s with _ | ⟨e, r⟩
    · rw [commandLoop_nil_eq]
      by_cases h : buf = []
      · rw [if_pos h]; rfl
      · rw [if_neg h]; rfl
    · rcases e with ⟨i, b, a⟩ | b | _
      · rw [commandLoop_m_eq]
        by_cases h1 : i ≤ 1
        · rw [if_pos h1]; rfl
        · rw [if_neg h1]
          by_cases h3 : i ≤ 3
          · rw [if_pos h3]
            rcases h : commandLoop n (if b = [] then buf else buf ++ [b]) r with
              ⟨r2, acts, res⟩
            have h2 := ih (if b = [] then buf else buf ++ [b]) r
            rw [h] at h2
            show (Act.sendSpace :: acts).all isExecAct = true
            simp only [List.all_cons, h2]
            rfl
          · rw [if_neg h3]
            rcases h : commandLoop n (if b = [] then buf else buf ++ [b]) r with
              ⟨r2, acts, res⟩
            have h2 := ih (if b = [] then buf else buf ++ [b]) r
            rw [h] at h2
            show (Act.sendYes :: acts).all isExecAct = true
            simp only [List.all_cons, h2]
            rfl
      · rw [commandLoop_t_eq]
        by_cases h0 : (if b = [] then buf else buf ++ [b]) = []
        · rw [if_pos h0]; rfl
        · rw [if_neg h0]
          rcases r with _ | ⟨e2, r2⟩
          · rfl
          · rcases e2 with ⟨j, b2, a2⟩ | b2 | _ <;> rfl
      · rfl

theorem phaseDetach_acts (s : List Ev) :
    ((phaseDetach s).2.1).all isDetachAct = true := by
  rcases s with _ | ⟨e, r⟩
  · rfl
  · rcases e with ⟨i, b, a⟩ | b | _ <;> rfl

/-- C8: in every run of the session (aborted ones included), the writes occur
in phase order: the log decomposes into consecutive segments — console-server
authentication (the console password), the console attach (`connect`),
stabilization carriage returns, device authentication (username/device
password), mode normalization (`enable`/enable password), the clean-boundary
carriage return, command execution (the command line and the draining keys),
and detach.  Since each action kind occurs only in its segment, this gives
all four orderings of the claim: console-server auth before attach, attach
before any device-directed byte, device auth before mode normalization, and
mode normalization before any command line. -/
theorem claim_C8_phase_order (du dp ep : Option (List Char)) (command : List Char)
    (script : List Ev) :
    ∃ p1 p2 p3 p4 p5 p6 p7 p8,
      (executeViaConsole du dp ep command script).1 =
        p1 ++ p2 ++ p3 ++ p4 ++ p5 ++ p6 ++ p7 ++ p8 ∧
      p1.all isConsoleAuthAct = true ∧ p2.all isConnectAct = true ∧
      p3.all isCRAct = true ∧ p4.all isDevAuthAct = true ∧
      p5.all isModeAct = true ∧ p6.all isCRAct = true ∧
      p7.all isExecAct = true ∧ p8.all isDetachAct = true := by
  unfold executeViaConsole
  have hA := phaseAuth_acts script
  rcases hAeq : phaseAuth script with ⟨s1, a1, r1⟩
  rw [hAeq] at hA
  cases r1 with
  | error e1 =>
    exact ⟨a1, [], [], [], [], [], [], [], by simp, hA, rfl, rfl, rfl, rfl,
      rfl, rfl, rfl⟩
  | ok u1 =>
    dsimp only
    obtain ⟨cs2, hcs2, hcs2all⟩ := phaseAttach_acts s1
    rcases hBeq : phaseAttach s1 with ⟨s2, a2, r2⟩
    rw [hBeq] at hcs2
    cases r2 with
    | error e2 =>
      refine ⟨a1, [Act.sendConnect], cs2, [], [], [], [], [], ?_, hA, rfl,
        hcs2all, rfl, rfl, rfl, rfl, rfl⟩
      simp [show a2 = Act.sendConnect :: cs2 from hcs2]
    | ok u2 =>
      dsimp only
      obtain ⟨cs3, ds3, h3eq, h3cr, h3auth⟩ := phaseDetect_acts du dp s2
      rcases hCeq : phaseDetect du dp s2 with ⟨s3, a3, r3⟩
      rw [hCeq] at h3eq
      cases r3 with
      | error e3 =>
        refine ⟨a1, [Act.sendConnect], cs2 ++ cs3, ds3, [], [], [], [], ?_, hA,
          rfl, ?_, h3auth, rfl, rfl, rfl, rfl⟩
        · simp [show a2 = Act.sendConnect :: cs2 from hcs2,
            show a3 = cs3 ++ ds3 from h3eq]
        · simp [List.all_append, hcs2all, h3cr]
      | ok after =>
        dsimp only
        have h4 := phaseEnable_acts ep after s3
        rcases hDeq : phaseEnable ep after s3 with ⟨s4, a4, r4⟩
        rw [hDeq] at h4
        cases r4 with
        | error e4 =>
          refine ⟨a1, [Act.sendConnect], cs2 ++ cs3, ds3, a4, [], [], [], ?_,
            hA, rfl, ?_, h3auth, h4, rfl, rfl, rfl⟩
          · simp [show a2 = Act.sendConnect :: cs2 from hcs2,
              show a3 = cs3 ++ ds3 from h3eq]
          · simp [List.all_append, hcs2all, h3cr]
        | ok u4 =>
          dsimp only
          have h5 := phaseReady_acts s4
          rcases hEeq : phaseReady s4 with ⟨s5, a5, r5⟩
          rw [hEeq] at h5
          cases r5 with
          | error e5 =>
            refine ⟨a1, [Act.sendConnect], cs2 ++ cs3, ds3, a4, a5, [], [], ?_,
              hA, rfl, ?_, h3auth, h4, h5, rfl, rfl⟩
            · simp [show a2 = Act.sendConnect :: cs2 from hcs2,
                show a3 = cs3 ++ ds3 from h3eq]
            · simp [List.all_append, hcs2all, h3cr]
          | ok u5 =>
            dsimp only
            have h6 := commandLoop_acts 50 [] s5
            rcases hFeq : commandLoop 50 [] s5 with ⟨s6, a6, r6⟩
            rw [hFeq] at h6
            cases r6 with
            | error e6 =>
              refine ⟨a1, [Act.sendConnect], cs2 ++ cs3, ds3, a4, a5,
                Act.sendCmd command :: a6, [], ?_, hA, rfl, ?_, h3auth, h4, h5,
                ?_, rfl⟩
              · simp [show a2 = Act.sendConnect :: cs2 from hcs2,
                  show a3 = cs3 ++ ds3 from h3eq]
              · simp [List.all_append, hcs2all, h3cr]
              · simp only [List.all_cons, h6]
                rfl
            | ok chunks =>
              dsimp only
              have h7 := phaseDetach_acts s6
              rcases hGeq : phaseDetach s6 with ⟨s7, a7, r7⟩
              rw [hGeq] at h7
              cases r7 with
              | error e7 =>
                refine ⟨a1, [Act.sendConnect], cs2 ++ cs3, ds3, a4, a5,
                  Act.sendCmd command :: a6, a7, ?_, hA, rfl, ?_, h3auth, h4,
                  h5, ?_, h7⟩
                · simp [show a2 = Act.sendConnect :: cs2 from hcs2,
                    show a3 = cs3 ++ ds3 from h3eq]
                · simp [List.all_append, hcs2all, h3cr]
                · simp only [List.all_cons, h6]
                  rfl
              | ok u7 =>
                refine ⟨a1, [Act.sendConnect], cs2 ++ cs3, ds3, a4, a5,
                  Act.sendCmd command :: a6, a7, ?_, hA, rfl, ?_, h3auth, h4,
                  h5, ?_, h7⟩
                · simp [show a2 = Act.sendConnect :: cs2 from hcs2,
                    show a3 = cs3 ++ ds3 from h3eq]
                · simp [List.all_append, hcs2all, h3cr]
                · simp only [List.all_cons, h6]
                  rfl
